import Mathlib

/-!
Verification development for the rsm memory subsystem: a shallow embedding of
the physical memory manager (buddy allocator, src/src/mem_mm.c), the virtual
memory translation cache and page-directory walk (src/src/vm.c), and the
kernel-style heap allocator (slab heaps and bitmap sub-heaps, kmem).

Machine integers (usize/u64) are modelled as Nat with explicit reduction
modulo 2^64 where the C code can wrap.  Host memory containing embedded
free-list nodes is modelled by keeping the per-order free lists as Lean lists
of the node addresses (front of the list = the entry `ilist_pop` removes
first, `ilist_append` adds at the back).  Bitsets are modelled as total
functions from bit index to Bool; the C code allocates enough backing bytes
for every index that is ever touched, so the bound is immaterial to the
functional behaviour.
-/

namespace RSM

/-- Word size of usize/u64: values reduce modulo this. -/
def U64 : Nat := 2 ^ 64

/-- usize subtraction `a -= b` with wraparound, as in C. -/
def usizeSub (a b : Nat) : Nat := (a + (U64 - b % U64)) % U64

/-- usize addition `a += b` with wraparound, as in C. -/
def usizeAdd (a b : Nat) : Nat := (a + b) % U64

/-- PAGE_SIZE (RSM_PAGE_SIZE): 4096 bytes. -/
def PAGE_SIZE : Nat := 4096

/-- MAX_ORDER from src/src/mem_mm.c line 55. -/
def MAX_ORDER : Nat := 20

/-- MAX_ORDER_NPAGES: number of pages in the largest order (mem_mm.c line 58). -/
def MAX_ORDER_NPAGES : Nat := 1 <<< MAX_ORDER

/-- Buddy allocator state `rmm_t` (mem_mm.c lines 67-75).
`freelists k` holds the absolute addresses of the embedded `ilist_t` nodes of
the free blocks of order `k`, front first; `bitsets k b` is bit `b` of the
order-`k` use bitset. -/
structure RMM where
  start_addr : Nat
  end_addr : Nat
  free_size : Nat
  bitsets : Nat → Nat → Bool
  freelists : Nat → List Nat

/-- `bit_set(mm->bitsets[order], bit)`. -/
def bset (mm : RMM) (order bit : Nat) : RMM :=
  { mm with bitsets := fun o b => if o = order then (if b = bit then true else mm.bitsets o b) else mm.bitsets o b }

/-- `bit_clear(mm->bitsets[order], bit)`. -/
def bclear (mm : RMM) (order bit : Nat) : RMM :=
  { mm with bitsets := fun o b => if o = order then (if b = bit then false else mm.bitsets o b) else mm.bitsets o b }

/-- `ilist_append(&mm->freelists[order], node)`: add at the back. -/
def flAppend (mm : RMM) (order : Nat) (node : Nat) : RMM :=
  { mm with freelists := fun o => if o = order then mm.freelists o ++ [node] else mm.freelists o }

/-- Replace the order-`order` free list wholesale (used for pop). -/
def flSet (mm : RMM) (order : Nat) (l : List Nat) : RMM :=
  { mm with freelists := fun o => if o = order then l else mm.freelists o }

/-- `ilist_del(node)` for a node known to sit on `freelists[order]`:
remove the (first) occurrence of the node address. -/
def flErase (mm : RMM) (order : Nat) (node : Nat) : RMM :=
  { mm with freelists := fun o => if o = order then (mm.freelists o).erase node else mm.freelists o }

/-- Fuel-indexed body of `rmm_allocpages1` (mem_mm.c lines 139-186).  The C
recursion increments `order` and stops as soon as `order > MAX_ORDER`
(line 142), so its depth from `order` is at most `MAX_ORDER + 2 - order`;
the fuel only makes that bound explicit (the fuel-0 case is unreachable for
the fuel used by `rmm_allocpages1`).  Returns the allocated block's address
relative to `start_addr` (`none` for the C return value `UINTPTR_MAX`),
together with the updated state. -/
def allocpages1go : Nat → RMM → Nat → Option Nat × RMM
  | 0, mm, _ => (none, mm)
  | fuel + 1, mm, order =>
      if order > MAX_ORDER then (none, mm)
      else
        let size := PAGE_SIZE <<< order
        match mm.freelists order with
        | node :: rest =>
            -- dequeued a free block: addr -= mm->start_addr
            let addr := node - mm.start_addr
            let mm1 := flSet mm order rest
            (some addr, bset mm1 order (addr / size))
        | [] =>
            match allocpages1go fuel mm (order + 1) with
            | (none, mm1) => (none, mm1)
            | (some addr, mm1) =>
                -- split: buddy2 goes on this order's free list
                let buddy2 := (addr + mm1.start_addr) + size
                let mm2 := flAppend mm1 order buddy2
                (some addr, bset mm2 order (addr / size))

/-- `rmm_allocpages1` (mem_mm.c lines 139-186). -/
def rmm_allocpages1 (mm : RMM) (order : Nat) : Option Nat × RMM :=
  allocpages1go (MAX_ORDER + 2) mm order

/-- Fuel-indexed order loop of `rmm_allocpages` (mem_mm.c lines 195-197):
`for (usize n = npages; n && !(n & 1); n >>= 1) order++`.  The loop halves
`n`, so `n` itself is enough fuel. -/
def orderLoopGo : Nat → Nat → Nat
  | 0, _ => 0
  | fuel + 1, n => if n ≠ 0 ∧ n % 2 = 0 then orderLoopGo fuel (n / 2) + 1 else 0

/-- The order computation of `rmm_allocpages` (mem_mm.c lines 195-197). -/
def orderLoop (n : Nat) : Nat := orderLoopGo n n

/-- `rmm_allocpages` (mem_mm.c lines 189-211).  The caller must pass a power
of two (`safecheckf(IS_POW2(npages))`, line 193); that is a hypothesis of the
theorems.  Returns the absolute block address. -/
def rmm_allocpages (mm : RMM) (npages : Nat) : Option Nat × RMM :=
  if npages = 0 then (none, mm)
  else
    let order := orderLoop npages
    match rmm_allocpages1 mm order with
    | (none, mm1) => (none, mm1)
    | (some addr, mm1) =>
        (some (addr + mm1.start_addr),
         { mm1 with free_size := usizeSub mm1.free_size (npages * PAGE_SIZE) })

/-- Fuel-indexed body of `rmm_freepages1` (mem_mm.c lines 232-267); the C
recursion increments `order` and stops once `order > MAX_ORDER` (line 233),
so the fuel only makes the depth bound explicit.  Returns the order at which
the block's use bit was found (`none` for the C return value -1) and the
updated state.  In the merge branch the result of the recursive call is
discarded except for its state update, exactly as in the C code (line 257). -/
def freepages1go : Nat → RMM → Nat → Nat → Option Nat × RMM
  | 0, mm, _, _ => (none, mm)
  | fuel + 1, mm, addr, order =>
      if order > MAX_ORDER then (none, mm)
      else
        let bit := addr / (PAGE_SIZE <<< order)
        if mm.bitsets order bit = false then freepages1go fuel mm addr (order + 1)
        else
          let buddy_addr := addr ^^^ (PAGE_SIZE <<< order)
          let buddy_bit := buddy_addr / (PAGE_SIZE <<< order)
          let mm1 := bclear mm order bit
          if mm1.bitsets order buddy_bit = false then
            -- buddy is not in use: merge
            let mm2 := flErase mm1 order (buddy_addr + mm1.start_addr)
            let low := if buddy_addr > addr then addr else buddy_addr
            (some order, (freepages1go fuel mm2 low (order + 1)).2)
          else
            (some order, flAppend mm1 order (addr + mm1.start_addr))

/-- `rmm_freepages1` (mem_mm.c lines 232-267). -/
def rmm_freepages1 (mm : RMM) (addr : Nat) (order : Nat) : Option Nat × RMM :=
  freepages1go (MAX_ORDER + 2) mm addr order

/-- `rmm_freepages` (mem_mm.c lines 270-278). -/
def rmm_freepages (mm : RMM) (ptr : Nat) : RMM :=
  match rmm_freepages1 mm (ptr - mm.start_addr) 0 with
  | (none, mm1) => mm1
  | (some order, mm1) =>
      { mm1 with free_size := usizeAdd mm1.free_size (PAGE_SIZE <<< order) }

/-- Fuel-indexed `FLOOR_POW2(x)`: round down to the nearest power of two
(1 when x is 0).  The recursion halves `n`, so `n` is enough fuel. -/
def floorPow2Go : Nat → Nat → Nat
  | 0, _ => 1
  | fuel + 1, n => if n ≤ 1 then 1 else 2 * floorPow2Go fuel (n / 2)

/-- `FLOOR_POW2(x)`: round down to the nearest power of two (1 when x = 0). -/
def floorPow2 (n : Nat) : Nat := floorPow2Go n n

/-- Fuel-indexed order loop of rmm_create (mem_mm.c lines 380-382):
`int order = -1; for (usize n = npages; n; n >>= 1) order++` — for a power
of two this is its exponent.  The loop halves `n`, so `n` is enough fuel. -/
def flsOrderGo : Nat → Nat → Nat
  | 0, _ => 0
  | fuel + 1, n => if n ≤ 1 then 0 else flsOrderGo fuel (n / 2) + 1

/-- The order computation of the rmm_create seeding loop. -/
def flsOrder (n : Nat) : Nat := flsOrderGo n n

/-- Blank PMM over usable range `[start, start+memsize)`: all bitsets zeroed
(`memset(bitset_start, 0, size)`, mem_mm.c line 353), all free lists empty
(`ilist_init`, line 349), `free_size = memsize` (line 364). -/
def rmm_blank (start memsize : Nat) : RMM :=
  { start_addr := start
    end_addr := start + memsize
    free_size := memsize
    bitsets := fun _ _ => false
    freelists := fun _ => [] }

/-- Fuel-indexed free-list seeding loop of `rmm_create` (mem_mm.c lines
373-413): insert the greedy power-of-two decomposition of the usable span,
clearing each block's bit and setting the bit of its imaginary end buddy.
`cur` is the absolute address of the next block (the local `start`).  Every
iteration consumes at least one page of `npages_total`, so `npages_total`
itself is enough fuel. -/
def seedGo : Nat → RMM → Nat → Nat → RMM
  | 0, mm, _, _ => mm
  | fuel + 1, mm, cur, npages_total =>
      if npages_total = 0 then mm
      else
        let npages := min (floorPow2 npages_total) MAX_ORDER_NPAGES
        let order := flsOrder npages
        let block_size := PAGE_SIZE <<< order
        let mm1 := flAppend mm order cur
        let bit := (cur - mm.start_addr) / block_size
        let mm2 := bclear mm1 order bit
        let mm3 := bset mm2 order (bit + 1)
        seedGo fuel mm3 (cur + block_size) (npages_total - npages)

/-- The seeding loop of `rmm_create` (mem_mm.c lines 373-413). -/
def rmm_seedLoop (mm : RMM) (cur : Nat) (npages_total : Nat) : RMM :=
  seedGo npages_total mm cur npages_total

/-- A freshly created PMM (`rmm_create`, mem_mm.c lines 281-422) whose usable
page-aligned range is `[start, start + memsize)`.  The address arithmetic of
lines 284-358 (placing `rmm_t` and the bitsets at the top of the host region)
only determines `start` and `memsize`; parameterising over both covers every
possible outcome of it, so this captures lines 348-355 (zeroed bitsets and
empty free lists), 362-364 and the seeding loop of lines 373-413. -/
def rmm_init (start memsize : Nat) : RMM :=
  rmm_seedLoop (rmm_blank start memsize) start (memsize / PAGE_SIZE)


/-! ## Basic lemmas about the allocation path -/

theorem orderLoopGo_pow2 : ∀ fuel k, k < fuel → orderLoopGo fuel (2 ^ k) = k := by
  intro fuel
  induction fuel with
  | zero => intro k hk; omega
  | succ n ih =>
      intro k hk
      cases k with
      | zero => simp [orderLoopGo]
      | succ m =>
          have h2 : 2 ^ (m + 1) % 2 = 0 := by simp [pow_succ, Nat.mul_mod_left]
          have hne : 2 ^ (m + 1) ≠ 0 := by positivity
          have hdiv : 2 ^ (m + 1) / 2 = 2 ^ m := by
            rw [pow_succ]; exact Nat.mul_div_cancel _ (by norm_num)
          simp only [orderLoopGo, if_pos (And.intro hne h2), hdiv]
          rw [ih m (by omega)]

theorem orderLoop_pow2 (k : Nat) : orderLoop (2 ^ k) = k :=
  orderLoopGo_pow2 _ _ (Nat.lt_two_pow k)

/-- `rmm_allocpages1` never touches `start_addr`, `end_addr` or `free_size`. -/
theorem allocpages1go_frame :
    ∀ fuel mm order, (allocpages1go fuel mm order).2.start_addr = mm.start_addr ∧
      (allocpages1go fuel mm order).2.end_addr = mm.end_addr ∧
      (allocpages1go fuel mm order).2.free_size = mm.free_size := by
  intro fuel
  induction fuel with
  | zero => intro mm order; exact ⟨rfl, rfl, rfl⟩
  | succ n ih =>
      intro mm order
      by_cases ho : order > MAX_ORDER
      · have h0 : allocpages1go (n + 1) mm order = (none, mm) := by
          simp only [allocpages1go, if_pos ho]
        rw [h0]
        exact ⟨rfl, rfl, rfl⟩
      · cases hfl : mm.freelists order with
        | cons a l =>
            have h0 : allocpages1go (n + 1) mm order =
                (some (a - mm.start_addr),
                 bset (flSet mm order l) order
                    ((a - mm.start_addr) / (PAGE_SIZE <<< order))) := by
              simp only [allocpages1go, if_neg ho, hfl]
            rw [h0]
            exact ⟨rfl, rfl, rfl⟩
        | nil =>
            have h := ih mm (order + 1)
            rcases hrec : allocpages1go n mm (order + 1) with ⟨o1, mm1⟩
            rw [hrec] at h
            cases o1 with
            | none =>
                have h0 : allocpages1go (n + 1) mm order = (none, mm1) := by
                  simp only [allocpages1go, if_neg ho, hfl, hrec]
                rw [h0]
                exact h
            | some a =>
                have h0 : allocpages1go (n + 1) mm order =
                    (some a,
                     bset (flAppend mm1 order ((a + mm1.start_addr) + (PAGE_SIZE <<< order)))
                       order (a / (PAGE_SIZE <<< order))) := by
                  simp only [allocpages1go, if_neg ho, hfl, hrec]
                rw [h0]
                exact h

/-- `rmm_allocpages1` fails exactly when all free lists from `order` up to
`MAX_ORDER` are empty, and on failure it leaves the state untouched. -/
theorem allocpages1go_none :
    ∀ fuel order mm, MAX_ORDER < order + fuel →
      ((allocpages1go fuel mm order).1 = none ↔
        ∀ j, order ≤ j → j ≤ MAX_ORDER → mm.freelists j = []) ∧
      ((allocpages1go fuel mm order).1 = none → allocpages1go fuel mm order = (none, mm)) := by
  intro fuel
  induction fuel with
  | zero =>
      intro order mm hf
      exact ⟨⟨fun _ j h1 h2 => absurd (h1.trans h2) (by omega), fun _ => rfl⟩, fun _ => rfl⟩
  | succ n ih =>
      intro order mm hf
      by_cases ho : order > MAX_ORDER
      · have h0 : allocpages1go (n + 1) mm order = (none, mm) := by
          simp only [allocpages1go, if_pos ho]
        rw [h0]
        exact ⟨⟨fun _ j h1 h2 => absurd (h1.trans h2) (by omega), fun _ => rfl⟩, fun _ => rfl⟩
      · cases hfl : mm.freelists order with
        | cons a l =>
            have h0 : allocpages1go (n + 1) mm order =
                (some (a - mm.start_addr),
                 bset (flSet mm order l) order
                    ((a - mm.start_addr) / (PAGE_SIZE <<< order))) := by
              simp only [allocpages1go, if_neg ho, hfl]
            rw [h0]
            refine ⟨⟨fun h => by simp at h, fun h => ?_⟩, fun h => by simp at h⟩
            have := h order le_rfl (by omega)
            rw [hfl] at this
            exact absurd this (by simp)
        | nil =>
            have IH := ih (order + 1) mm (by omega)
            rcases hrec : allocpages1go n mm (order + 1) with ⟨o1, mm1⟩
            rw [hrec] at IH
            cases o1 with
            | none =>
                have hmm1 : mm1 = mm := congrArg Prod.snd (IH.2 rfl)
                have h0 : allocpages1go (n + 1) mm order = (none, mm1) := by
                  simp only [allocpages1go, if_neg ho, hfl, hrec]
                rw [h0, hmm1]
                refine ⟨⟨fun _ j h1 h2 => ?_, fun _ => rfl⟩, fun _ => rfl⟩
                rcases Nat.eq_or_lt_of_le h1 with h | h
                · rw [← h]; exact hfl
                · rw [hmm1] at IH
                  exact (IH.1.mp rfl) j h h2
            | some a =>
                have h0 : allocpages1go (n + 1) mm order =
                    (some a,
                     bset (flAppend mm1 order ((a + mm1.start_addr) + (PAGE_SIZE <<< order)))
                       order (a / (PAGE_SIZE <<< order))) := by
                  simp only [allocpages1go, if_neg ho, hfl, hrec]
                rw [h0]
                refine ⟨⟨fun h => by simp at h, fun h => ?_⟩, fun h => by simp at h⟩
                have : (some a : Option Nat) = none :=
                  IH.1.mpr (fun j h1 h2 => h j (by omega) h2)
                simp at this

theorem usizeSub_exact (a b : Nat) (hba : b ≤ a) (ha : a < U64) :
    usizeSub a b = a - b := by
  unfold usizeSub
  have hb : b % U64 = b := Nat.mod_eq_of_lt (lt_of_le_of_lt hba ha)
  rw [hb]
  have hU : 0 < U64 := by norm_num [U64]
  have h1 : a + (U64 - b) = (a - b) + U64 := by omega
  rw [h1, Nat.add_mod_right]
  exact Nat.mod_eq_of_lt (by omega)

/-- C7: for every PMM state and power of two `npages = 2^k`, `rmm_allocpages`
returns NULL exactly when every free list at orders `k..MAX_ORDER` is empty;
on failure the state is unchanged; on success `free_size` drops by exactly
`npages * PAGE_SIZE` (stated both as the wrapping usize subtraction the code
performs and, when `free_size` is an in-range byte count at least the
requested size, as the exact Nat subtraction). -/
theorem rmm_allocpages_oom_exact (mm : RMM) (k : Nat) (hk : k ≤ 63) :
    ((rmm_allocpages mm (2 ^ k)).1 = none ↔
        ∀ j, k ≤ j → j ≤ MAX_ORDER → mm.freelists j = []) ∧
    ((rmm_allocpages mm (2 ^ k)).1 = none → (rmm_allocpages mm (2 ^ k)).2 = mm) ∧
    (∀ p, (rmm_allocpages mm (2 ^ k)).1 = some p →
        (rmm_allocpages mm (2 ^ k)).2.free_size = usizeSub mm.free_size (2 ^ k * PAGE_SIZE) ∧
        (2 ^ k * PAGE_SIZE ≤ mm.free_size → mm.free_size < U64 →
          (rmm_allocpages mm (2 ^ k)).2.free_size = mm.free_size - 2 ^ k * PAGE_SIZE)) := by
  have hne : (2 : Nat) ^ k ≠ 0 := by positivity
  have hol := orderLoop_pow2 k
  have hfr := allocpages1go_frame (MAX_ORDER + 2) mm k
  have hn := allocpages1go_none (MAX_ORDER + 2) k mm (by omega)
  rcases hrec : allocpages1go (MAX_ORDER + 2) mm k with ⟨o1, mm1⟩
  rw [hrec] at hfr hn
  cases o1 with
  | none =>
      have h0 : rmm_allocpages mm (2 ^ k) = (none, mm1) := by
        unfold rmm_allocpages rmm_allocpages1
        rw [if_neg hne]
        simp only [hol, hrec]
      have hmm1 : mm1 = mm := congrArg Prod.snd (hn.2 rfl)
      rw [h0, hmm1]
      exact ⟨⟨fun _ => hn.1.mp rfl, fun _ => rfl⟩, fun _ => rfl, fun p hp => by simp at hp⟩
  | some a =>
      have h0 : rmm_allocpages mm (2 ^ k) =
          (some (a + mm1.start_addr),
           { mm1 with free_size := usizeSub mm1.free_size (2 ^ k * PAGE_SIZE) }) := by
        unfold rmm_allocpages rmm_allocpages1
        rw [if_neg hne]
        simp only [hol, hrec]
      have hfs : mm1.free_size = mm.free_size := hfr.2.2
      rw [h0]
      refine ⟨⟨fun h => by simp at h, fun h => ?_⟩, fun h => by simp at h, fun p hp => ?_⟩
      · exact absurd (hn.1.mpr h) (by simp)
      · refine ⟨by simp only [hfs], fun h1 h2 => ?_⟩
        simp only [hfs]
        rw [usizeSub_exact _ _ h1 h2]

/-- C7 witness: a concrete three-page PMM; allocating one page succeeds and
decrements free_size by one page. -/
theorem rmm_allocpages_oom_exact_witness :
    (0 : Nat) ≤ 63 ∧
    (((rmm_allocpages (rmm_init 4096 (3 * 4096)) (2 ^ 0)).1 = none ↔
        ∀ j, 0 ≤ j → j ≤ MAX_ORDER → (rmm_init 4096 (3 * 4096)).freelists j = []) ∧
    ((rmm_allocpages (rmm_init 4096 (3 * 4096)) (2 ^ 0)).1 = none →
        (rmm_allocpages (rmm_init 4096 (3 * 4096)) (2 ^ 0)).2 = rmm_init 4096 (3 * 4096)) ∧
    (∀ p, (rmm_allocpages (rmm_init 4096 (3 * 4096)) (2 ^ 0)).1 = some p →
        (rmm_allocpages (rmm_init 4096 (3 * 4096)) (2 ^ 0)).2.free_size =
          usizeSub (rmm_init 4096 (3 * 4096)).free_size (2 ^ 0 * PAGE_SIZE) ∧
        (2 ^ 0 * PAGE_SIZE ≤ (rmm_init 4096 (3 * 4096)).free_size →
          (rmm_init 4096 (3 * 4096)).free_size < U64 →
          (rmm_allocpages (rmm_init 4096 (3 * 4096)) (2 ^ 0)).2.free_size =
            (rmm_init 4096 (3 * 4096)).free_size - 2 ^ 0 * PAGE_SIZE))) :=
  ⟨by decide, rmm_allocpages_oom_exact (rmm_init 4096 (3 * 4096)) 0 (by decide)⟩

/-- C10: `rmm_allocpages(mm, 0)` returns NULL and leaves the state unchanged
(mem_mm.c lines 190-191 return before the power-of-two safecheck). -/
theorem rmm_allocpages_zero (mm : RMM) : rmm_allocpages mm 0 = (none, mm) := by
  unfold rmm_allocpages
  rw [if_pos rfl]

/-- C1: counterexample by evaluation.  A fresh PMM whose usable span is
2^21 pages (8 GiB) seeds two order-20 (MAX_ORDER) blocks; creating the second
seed block clears the first block's imaginary end-buddy sentinel bit
(mem_mm.c line 407 clears the very bit that line 410 of the previous
iteration set).  Allocating the first order-20 block and freeing it then
merges across the seed-block boundary: the free removes the second (still
free) seed block from the order-20 free list and recurses past MAX_ORDER, so
after a sequence in which every allocated block was freed, every free list is
empty — both 4-GiB blocks are leaked — even though `free_size` is back at its
post-creation value.  The free lists therefore do not return to the
post-creation seed. -/
theorem rmm_buddy_balance_violated :
    (rmm_allocpages (rmm_init 4096 (2 ^ 33)) (2 ^ 20)).1 = some 4096 ∧
    (rmm_init 4096 (2 ^ 33)).freelists 20 = [4096, 4294971392] ∧
    (rmm_freepages (rmm_allocpages (rmm_init 4096 (2 ^ 33)) (2 ^ 20)).2 4096).freelists 20
      = [] ∧
    (∀ j, j ≤ MAX_ORDER →
      (rmm_freepages (rmm_allocpages (rmm_init 4096 (2 ^ 33)) (2 ^ 20)).2 4096).freelists j
        = []) ∧
    (rmm_freepages (rmm_allocpages (rmm_init 4096 (2 ^ 33)) (2 ^ 20)).2 4096).free_size
      = (rmm_init 4096 (2 ^ 33)).free_size := by
  exact ⟨by decide, by decide, by decide, by decide, by decide⟩

/-! ## Virtual memory: translation cache (src/src/vm.c)

The cache functions `vm_cache_lookup`, `vm_cache_add`, `vm_cache_init` and
`vm_cache_invalidate` are in src/src/vm.c.  The constants and macros they use
(`vm.h`) are not under src/, so they are modelled from the spec. -/

/-- Modelled from the spec (vm.h is not in src/): `PAGE_SIZE_BITS`,
log2 of the 4096-byte page (spec section 3 "Page"). -/
def PAGE_SIZE_BITS : Nat := 12

/-- Modelled from the spec (vm.h is not in src/): `VM_ADDR_BITS`.  The spec
fixes `VFN_BITS = VM_ADDR_BITS - PAGE_SIZE_BITS` split into `VM_PTAB_LEVELS`
fields of `VM_PTAB_BITS` bits, with one page-table node being exactly one
page of 64-bit PTEs (so `VM_PTAB_BITS = 9`); four levels give 48. -/
def VM_ADDR_BITS : Nat := 48

/-- Modelled from the spec: `VM_ADDR_MIN = PAGE_SIZE` (spec section 6). -/
def VM_ADDR_MIN : Nat := PAGE_SIZE

/-- Modelled from the spec: `VM_ADDR_MAX`, the largest VM_ADDR_BITS-bit
address. -/
def VM_ADDR_MAX : Nat := 2 ^ VM_ADDR_BITS - 1

/-- Modelled from the spec: `VM_ADDR_PAGE_MASK` masks an address down to its
page address ("`tag` holds the page-aligned virtual address", spec section 3;
the vm.c self-test uses `vaddr & VM_ADDR_PAGE_MASK` as `VM_PAGE_ADDR`). -/
def VM_ADDR_PAGE_MASK : Nat := VM_ADDR_MAX ^^^ (PAGE_SIZE - 1)

/-- Modelled from the spec: `VM_PTAB_BITS` (one page of 64-bit PTEs = 512
entries). -/
def VM_PTAB_BITS : Nat := 9

/-- Modelled from the spec: `VM_PTAB_LEVELS`. -/
def VM_PTAB_LEVELS : Nat := 4

/-- Modelled from the spec: `VM_PTAB_LEN = 2 ^ VM_PTAB_BITS`. -/
def VM_PTAB_LEN : Nat := 512

/-- Modelled from the spec: `VM_CACHE_LEN`, the number of direct-mapped cache
entries; any power of two; 4096 entries chosen here. -/
def VM_CACHE_LEN : Nat := 4096

/-- Modelled from the spec: index mask, `VM_CACHE_LEN - 1` ("keyed by
`VFN mod VM_CACHE_LEN`", spec section 3). -/
def VM_CACHE_INDEX_VFN_MASK : Nat := VM_CACHE_LEN - 1

/-- Modelled from the spec glossary: `VFN = vaddr / PAGE_SIZE` (the biased
subtract-1 happens inside the page-directory walk, not here). -/
def VM_VFN (vaddr : Nat) : Nat := vaddr >>> PAGE_SIZE_BITS

/-- Modelled from the spec: offset of an address within its page. -/
def VM_ADDR_OFFSET (vaddr : Nat) : Nat := vaddr &&& (PAGE_SIZE - 1)

/-- Modelled from the spec: page address of a virtual address. -/
def VM_PAGE_ADDR (vaddr : Nat) : Nat := vaddr &&& VM_ADDR_PAGE_MASK

/-- One cache entry `vm_cache_ent_t` `{haddr_diff, tag}` (spec section 3);
both fields are u64. -/
structure vm_cache_ent_t where
  haddr_diff : Nat
  tag : Nat
deriving DecidableEq

/-- The translation cache `vm_cache_t`: a direct-mapped array of
`VM_CACHE_LEN` entries, modelled as a function from index (always reduced
modulo `VM_CACHE_LEN` before use) to entry. -/
structure vm_cache_t where
  entries : Nat → vm_cache_ent_t

/-- An entry whose bytes are all 0xff (`memset(cache, 0xff, ...)`). -/
def vm_cache_ent_allones : vm_cache_ent_t := ⟨U64 - 1, U64 - 1⟩

/-- `vm_cache_init` (vm.c lines 212-214): fill with 0xff bytes. -/
def vm_cache_init : vm_cache_t := ⟨fun _ => vm_cache_ent_allones⟩

/-- `vm_cache_invalidate` (vm.c lines 217-219). -/
def vm_cache_invalidate (_cache : vm_cache_t) : vm_cache_t := vm_cache_init

/-- `vm_cache_lookup` (vm.c lines 222-230).  The C locals are
`index = VM_VFN(vaddr) & VM_CACHE_INDEX_VFN_MASK`,
`actual_tag = cache->entries[index].tag`,
`expected_tag = vaddr & (VM_ADDR_PAGE_MASK ^ (alignment - 1))`,
`is_valid = actual_tag == expected_tag`; they are inlined here. -/
def vm_cache_lookup (cache : vm_cache_t) (vaddr alignment : Nat) : Nat :=
  (((cache.entries (VM_VFN vaddr &&& VM_CACHE_INDEX_VFN_MASK)).haddr_diff + vaddr) % U64) *
    (if (cache.entries (VM_VFN vaddr &&& VM_CACHE_INDEX_VFN_MASK)).tag =
        vaddr &&& (VM_ADDR_PAGE_MASK ^^^ (alignment - 1)) then 1 else 0)

/-- `vm_cache_add` (vm.c lines 233-246): store diff and tag at the entry for
`vpaddr` (`VM_CACHE_ENTRY`, modelled from the spec as the entry at
`VFN mod VM_CACHE_LEN`); returns `haddr_diff = (u64)hpaddr - vpaddr`. -/
def vm_cache_add (cache : vm_cache_t) (vpaddr hpaddr : Nat) : Nat × vm_cache_t :=
  (usizeSub hpaddr vpaddr,
   ⟨fun i => if i = VM_VFN vpaddr &&& VM_CACHE_INDEX_VFN_MASK
             then ⟨usizeSub hpaddr vpaddr, vpaddr⟩ else cache.entries i⟩)

/-- Modelled from the spec (vm.h is not in src/):
`vm_cache_invalidate_one(vaddr)` clears the single entry at
`VFN(vaddr) mod VM_CACHE_LEN` (spec section 4.2), restoring the all-ones
invalid pattern. -/
def vm_cache_invalidate_one (cache : vm_cache_t) (vaddr : Nat) : vm_cache_t :=
  ⟨fun i => if i = VM_VFN vaddr &&& VM_CACHE_INDEX_VFN_MASK
            then vm_cache_ent_allones else cache.entries i⟩

/-! ### Bit-level helper lemmas -/

theorem land_maskShift (x a b : Nat) :
    x &&& ((2 ^ a - 1) <<< b) = ((x >>> b) % 2 ^ a) <<< b := by
  apply Nat.eq_of_testBit_eq
  intro i
  simp only [Nat.testBit_land, Nat.testBit_shiftLeft, Nat.testBit_mod_two_pow,
    Nat.testBit_two_pow_sub_one, Nat.testBit_shiftRight]
  by_cases hb : b ≤ i
  · have hi : b + (i - b) = i := by omega
    rw [hi]
    by_cases ha : i - b < a <;> simp [hb, ha, Bool.and_comm]
  · simp [hb]

theorem land_two_pow_sub_one (x n : Nat) : x &&& (2 ^ n - 1) = x % 2 ^ n := by
  apply Nat.eq_of_testBit_eq
  intro i
  simp only [Nat.testBit_land, Nat.testBit_mod_two_pow, Nat.testBit_two_pow_sub_one]
  by_cases h : i < n <;> simp [h, Bool.and_comm]

theorem mod_pow2_land (x y n : Nat) :
    (x &&& y) % 2 ^ n = (x % 2 ^ n) &&& (y % 2 ^ n) := by
  apply Nat.eq_of_testBit_eq
  intro i
  simp only [Nat.testBit_land, Nat.testBit_mod_two_pow]
  by_cases h : i < n <;> simp [h]

theorem mod_pow2_xor (x y n : Nat) :
    (x ^^^ y) % 2 ^ n = (x % 2 ^ n) ^^^ (y % 2 ^ n) := by
  apply Nat.eq_of_testBit_eq
  intro i
  simp only [Nat.testBit_xor, Nat.testBit_mod_two_pow]
  by_cases h : i < n <;> simp [h]

/-- The page mask is a contiguous run of bits 12..47. -/
theorem vm_addr_page_mask_eq : VM_ADDR_PAGE_MASK = (2 ^ 36 - 1) <<< 12 := by decide

/-- C8: after `vm_cache_add(cache, vp, hp)` with page-aligned in-range
arguments, `vm_cache_lookup(v, 1)` for any `v` on page `vp` returns `hp`
plus `v`'s page offset; and after `vm_cache_invalidate_one(cache, v)`,
`vm_cache_lookup(cache, v, 1)` returns 0 (for any cache state whatsoever). -/
theorem vm_cache_add_lookup_roundtrip (c : vm_cache_t) (vp hp off : Nat)
    (hvp : vp % PAGE_SIZE = 0) (hhp : hp % PAGE_SIZE = 0)
    (hvp48 : vp < 2 ^ 48) (hhp64 : hp < U64) (hoff : off < PAGE_SIZE) :
    vm_cache_lookup (vm_cache_add c vp hp).2 (vp + off) 1 = hp + off ∧
    (∀ c2 v, vm_cache_lookup (vm_cache_invalidate_one c2 v) v 1 = 0) := by
  have hP : (PAGE_SIZE : Nat) = 4096 := rfl
  rw [hP] at hvp hhp hoff
  have h48 : (2 : Nat) ^ 48 = 281474976710656 := by norm_num
  have h2p12 : (2 : Nat) ^ 12 = 4096 := by norm_num
  constructor
  · have hvfn : VM_VFN (vp + off) = VM_VFN vp := by
      unfold VM_VFN PAGE_SIZE_BITS
      simp only [Nat.shiftRight_eq_div_pow, h2p12]
      omega
    have hent : (vm_cache_add c vp hp).2.entries
        (VM_VFN (vp + off) &&& VM_CACHE_INDEX_VFN_MASK) = ⟨usizeSub hp vp, vp⟩ := by
      unfold vm_cache_add
      simp [hvfn]
    have hexp : (vp + off) &&& (VM_ADDR_PAGE_MASK ^^^ (1 - 1)) = vp := by
      have h0 : VM_ADDR_PAGE_MASK ^^^ (1 - 1) = VM_ADDR_PAGE_MASK := Nat.xor_zero _
      rw [h0, vm_addr_page_mask_eq, land_maskShift, Nat.shiftRight_eq_div_pow,
        Nat.shiftLeft_eq, h2p12]
      have h36 : (2 : Nat) ^ 36 = 68719476736 := by norm_num
      rw [h36]
      rw [h48] at hvp48
      omega
    unfold vm_cache_lookup
    rw [hent, hexp]
    show (usizeSub hp vp + (vp + off)) % U64 * (if vp = vp then 1 else 0) = hp + off
    rw [if_pos rfl, mul_one]
    unfold usizeSub
    have h48U : (2 : Nat) ^ 48 < U64 := by norm_num [U64]
    rw [Nat.mod_eq_of_lt (show vp < U64 by omega), Nat.mod_add_mod]
    have harr : hp + (U64 - vp) + (vp + off) = (hp + off) + U64 := by
      have : vp ≤ U64 := by omega
      omega
    rw [harr, Nat.add_mod_right]
    have hfin : hp + off < U64 := by
      unfold U64 at hhp64 ⊢
      omega
    exact Nat.mod_eq_of_lt hfin
  · intro c2 v
    have hent : (vm_cache_invalidate_one c2 v).entries
        (VM_VFN v &&& VM_CACHE_INDEX_VFN_MASK) = vm_cache_ent_allones := by
      unfold vm_cache_invalidate_one
      simp
    unfold vm_cache_lookup
    rw [hent]
    have hmask0 : VM_ADDR_PAGE_MASK ^^^ (1 - 1) = VM_ADDR_PAGE_MASK := Nat.xor_zero _
    rw [hmask0]
    have hle : v &&& VM_ADDR_PAGE_MASK ≤ VM_ADDR_PAGE_MASK := Nat.and_le_right
    have hlt : VM_ADDR_PAGE_MASK < U64 - 1 := by decide
    have hne : vm_cache_ent_allones.tag ≠ v &&& VM_ADDR_PAGE_MASK := by
      show U64 - 1 ≠ v &&& VM_ADDR_PAGE_MASK
      omega
    rw [if_neg hne, mul_zero]

/-- C8 witness: the spec scenario — add (0xdeadb000 → 0x1044f000), then
`lookup(0xdeadbeef, 1) = 0x1044feef` and after `invalidate_one` the lookup
returns 0. -/
theorem vm_cache_add_lookup_roundtrip_witness :
    ((0xdeadb000 : Nat) % PAGE_SIZE = 0 ∧ (0x1044f000 : Nat) % PAGE_SIZE = 0 ∧
     (0xdeadb000 : Nat) < 2 ^ 48 ∧ (0x1044f000 : Nat) < U64 ∧ (0xeef : Nat) < PAGE_SIZE) ∧
    (vm_cache_lookup (vm_cache_add vm_cache_init 0xdeadb000 0x1044f000).2
        (0xdeadb000 + 0xeef) 1 = 0x1044f000 + 0xeef ∧
     (∀ c2 v, vm_cache_lookup (vm_cache_invalidate_one c2 v) v 1 = 0)) :=
  ⟨⟨by decide, by decide, by decide, by decide, by decide⟩,
   vm_cache_add_lookup_roundtrip vm_cache_init 0xdeadb000 0x1044f000 0xeef
     (by decide) (by decide) (by decide) (by decide) (by decide)⟩

/-- Cache states reachable via `vm_cache_init`, `vm_cache_add` with
page-aligned arguments, `vm_cache_invalidate` and
`vm_cache_invalidate_one` (the reachability notion named by claim C9). -/
inductive CacheReach : vm_cache_t → Prop
  | init : CacheReach vm_cache_init
  | add (c : vm_cache_t) (vp hp : Nat) :
      CacheReach c → vp % PAGE_SIZE = 0 → hp % PAGE_SIZE = 0 →
      CacheReach (vm_cache_add c vp hp).2
  | invalidate (c : vm_cache_t) : CacheReach c → CacheReach (vm_cache_invalidate c)
  | invalidate_one (c : vm_cache_t) (v : Nat) :
      CacheReach c → CacheReach (vm_cache_invalidate_one c v)

/-- In a reachable cache every tag is the all-ones invalid pattern or a
page-aligned value. -/
theorem cacheReach_tags (c : vm_cache_t) (hc : CacheReach c) :
    ∀ i, (c.entries i).tag = U64 - 1 ∨ (c.entries i).tag % PAGE_SIZE = 0 := by
  induction hc with
  | init => intro i; exact Or.inl rfl
  | add c vp hp _ hvp _ ih =>
      intro i
      unfold vm_cache_add
      by_cases h : i = VM_VFN vp &&& VM_CACHE_INDEX_VFN_MASK
      · simp only [h, if_pos rfl]
        exact Or.inr hvp
      · simp only [if_neg h]
        exact ih i
  | invalidate c _ _ =>
      intro i
      exact Or.inl rfl
  | invalidate_one c v _ ih =>
      intro i
      unfold vm_cache_invalidate_one
      by_cases h : i = VM_VFN v &&& VM_CACHE_INDEX_VFN_MASK
      · simp only [h, if_pos rfl]
        exact Or.inl rfl
      · simp only [if_neg h]
        exact ih i

/-- C9 counterexample: the claim quantifies over every power of two `A > 1`,
but for `A` large enough that `A/PAGE_SIZE` exceeds the cache length the
alignment-folded tag comparison can hit.  In the reachable cache obtained by
adding the page-aligned pair (0x40000000 → 0x1044f000), the lookup of
`v = 0x41000000` (page-aligned but not 2^25-aligned) with alignment
`A = 2^25` returns the nonzero host address 0x1144f000. -/
theorem vm_cache_alignment_claim_false :
    CacheReach (vm_cache_add vm_cache_init 0x40000000 0x1044f000).2 ∧
    (0x41000000 : Nat) % 2 ^ 25 ≠ 0 ∧
    vm_cache_lookup (vm_cache_add vm_cache_init 0x40000000 0x1044f000).2
      0x41000000 (2 ^ 25) = 0x1144f000 :=
  ⟨CacheReach.add vm_cache_init 0x40000000 0x1044f000 CacheReach.init
      (by decide) (by decide),
   by decide, by decide⟩

/-- C9 (amended to operation alignments, `A ≤ PAGE_SIZE`): in any reachable
cache, a lookup with alignment `A = 2^t`, `1 ≤ t ≤ 12`, at an address not
aligned to `A` misses (returns 0), because the alignment bits folded into
the expected tag make it differ from every page-aligned tag, and the
all-ones invalid tag exceeds every possible expected tag. -/
theorem vm_cache_lookup_alignment_miss (c : vm_cache_t) (hc : CacheReach c)
    (v t : Nat) (ht1 : 1 ≤ t) (ht2 : t ≤ 12) (hmis : v % 2 ^ t ≠ 0) :
    vm_cache_lookup c v (2 ^ t) = 0 := by
  have htags := cacheReach_tags c hc (VM_VFN v &&& VM_CACHE_INDEX_VFN_MASK)
  have hmt : 2 ^ t - 1 < 2 ^ 12 := by
    have : (2 : Nat) ^ t ≤ 2 ^ 12 := Nat.pow_le_pow_right (by norm_num) ht2
    omega
  -- the expected tag keeps v's low t bits
  have hexp_mod : (v &&& (VM_ADDR_PAGE_MASK ^^^ (2 ^ t - 1))) % 2 ^ 12 = v % 2 ^ t := by
    rw [mod_pow2_land, mod_pow2_xor]
    have h1 : VM_ADDR_PAGE_MASK % 2 ^ 12 = 0 := by decide
    have h2 : (2 ^ t - 1) % 2 ^ 12 = 2 ^ t - 1 := Nat.mod_eq_of_lt hmt
    rw [h1, h2, Nat.zero_xor, land_two_pow_sub_one,
      Nat.mod_mod_of_dvd _ (pow_dvd_pow 2 ht2)]
  have hne : (c.entries (VM_VFN v &&& VM_CACHE_INDEX_VFN_MASK)).tag ≠
      v &&& (VM_ADDR_PAGE_MASK ^^^ (2 ^ t - 1)) := by
    rcases htags with h | h
    · -- all-ones tag exceeds any 48-bit expected tag
      rw [h]
      have hm48 : VM_ADDR_PAGE_MASK < 2 ^ 48 := by decide
      have ht48 : 2 ^ t - 1 < 2 ^ 48 := by
        have : (2 : Nat) ^ 12 < 2 ^ 48 := by norm_num
        omega
      have hx48 : VM_ADDR_PAGE_MASK ^^^ (2 ^ t - 1) < 2 ^ 48 :=
        Nat.xor_lt_two_pow hm48 ht48
      have hle : v &&& (VM_ADDR_PAGE_MASK ^^^ (2 ^ t - 1)) ≤
          VM_ADDR_PAGE_MASK ^^^ (2 ^ t - 1) := Nat.and_le_right
      have : (2 : Nat) ^ 48 < U64 - 1 := by norm_num [U64]
      omega
    · -- page-aligned tag has zero low bits, the expected tag does not
      intro heq
      have hcon := congrArg (fun x => x % 2 ^ 12) heq
      simp only at hcon
      rw [hexp_mod] at hcon
      have hP : (PAGE_SIZE : Nat) = 2 ^ 12 := by norm_num [PAGE_SIZE]
      rw [hP] at h
      exact hmis (by omega)
  unfold vm_cache_lookup
  rw [if_neg hne, mul_zero]

/-- C9 amended-theorem witness: the freshly initialised cache misses a
2-byte-aligned lookup at the odd address 1. -/
theorem vm_cache_lookup_alignment_miss_witness :
    (CacheReach vm_cache_init ∧ (1 : Nat) ≤ 1 ∧ (1 : Nat) ≤ 12 ∧ (1 : Nat) % 2 ^ 1 ≠ 0) ∧
    vm_cache_lookup vm_cache_init 1 (2 ^ 1) = 0 :=
  ⟨⟨CacheReach.init, by decide, by decide, by decide⟩,
   vm_cache_lookup_alignment_miss vm_cache_init CacheReach.init 1 1
     (by decide) (by decide) (by decide)⟩

/-! ## Kernel heap allocator (kmem, src/unnamed/part_000)

Sub-heaps (`heap_t`) and slab heaps (`slabheap_t`/`slabblock_t`) with the
top-level `kmem_alloc_aligned` / `kmem_free` policy.  usize arithmetic is
modelled as plain Nat; this coincides with the C semantics whenever the
requested size stays below 2^64 - CHUNK_SIZE (no wraparound), which the
theorems assume.  Chunk memory contents (scrub bytes) are not modelled; the
recycle list threaded through freed chunks is modelled as a Lean list whose
head is `block->recycle`. -/

/-- CHUNK_SIZE (part_000 lines 103-110): 64 bytes on a 64-bit host. -/
def CHUNK_SIZE : Nat := 64

/-- CHUNK_MASK `~((uintptr)CHUNK_SIZE - 1)` as a 64-bit value. -/
def CHUNK_MASK : Nat := U64 - CHUNK_SIZE

/-- BEST_FIT_THRESHOLD (part_000 line 116). -/
def BEST_FIT_THRESHOLD : Nat := 128

/-- SLABHEAP_COUNT (part_000 line 44). -/
def SLABHEAP_COUNT : Nat := 4

/-- SLABHEAP_MIN_SIZE = sizeof(void*) (part_000 line 45). -/
def SLABHEAP_MIN_SIZE : Nat := 8

/-- SLABHEAP_BLOCK_SIZE = PAGE_SIZE * 16 (part_000 line 46). -/
def SLABHEAP_BLOCK_SIZE : Nat := PAGE_SIZE * 16

/-- SLABHEAP_BLOCK_MASK `~(SLABHEAP_BLOCK_SIZE - 1)` as a 64-bit value. -/
def SLABHEAP_BLOCK_MASK : Nat := U64 - SLABHEAP_BLOCK_SIZE

/-- sizeof(slabblock_t) (part_000 lines 75-80): two 64-bit pointers plus two
u32 fields = 24 bytes on the 64-bit host. -/
def SLABBLOCK_HDR : Nat := 24

/-- `ALIGN2(x, a)` = `(x + a-1) & ~(a-1)` for a power of two `a`, written in
its arithmetic form (equal on the non-wrapping domain). -/
def ALIGN2 (x a : Nat) : Nat := (x + (a - 1)) / a * a

/-- Fuel-indexed `CEIL_POW2(x)`: round up to the nearest power of two
(1 when x ≤ 1).  In C the overflow case (`x > x << 1`) yields `~0`; the
theorems stay far below it.  The recursion halves `n`, so `n` is enough
fuel. -/
def ceilPow2Go : Nat → Nat → Nat
  | 0, _ => 1
  | fuel + 1, n => if n ≤ 1 then 1 else 2 * ceilPow2Go fuel ((n + 1) / 2)

/-- `CEIL_POW2(x)` (part_000 lines 1325-1334). -/
def CEIL_POW2 (n : Nat) : Nat := ceilPow2Go n n

/-- A sub-heap `heap_t` (part_000 lines 58-63): `chunks` is the base address
of the chunk region, `chunk_use` the used-bitset (one bit per chunk). -/
structure heap_t where
  chunk_cap : Nat
  chunk_len : Nat
  chunks : Nat
  chunk_use : Nat → Bool

/-- `bitset_set_range(&h->chunk_use, idx, len, v)`. -/
def bitset_set_range (bs : Nat → Bool) (idx len : Nat) (v : Bool) : Nat → Bool :=
  fun b => if idx ≤ b ∧ b < idx + len then v else bs b

/-- Whether the `n` chunks at offsets `base..base+n-1` are all free. -/
def bitset_run_free (bs : Nat → Bool) (base : Nat) : Nat → Bool
  | 0 => true
  | n + 1 => if bs (base + n) then false else bitset_run_free bs base n

/-- Modelled from the spec (bits.h is not in src/): scan upward from index
`cap1 - fuel` for the first index that is a multiple of `chunks_align` and
starts a run of `nchunks` clear bits; stop once the run would not fit before
the capacity. -/
def bitset_find_first_go (h : heap_t) (nchunks chunks_align cap1 : Nat) :
    Nat → Option Nat
  | 0 => none
  | fuel + 1 =>
      let s := cap1 - (fuel + 1)
      if s + nchunks ≤ h.chunk_cap then
        (if s % chunks_align = 0 && bitset_run_free h.chunk_use s nchunks then some s
         else bitset_find_first_go h nchunks chunks_align cap1 fuel)
      else none

/-- Modelled from the spec (bits.h is not in src/):
`bitset_find_first_fit` returns the first qualifying run's start; the found
run length is `nchunks` ("Update *size to nchunks * CHUNK_SIZE",
spec section 4.3). -/
def bitset_find_first_fit (h : heap_t) (nchunks chunks_align : Nat) : Option Nat :=
  bitset_find_first_go h nchunks chunks_align (h.chunk_cap + 1) (h.chunk_cap + 1)

/-- Number of consecutive free bits at and after `base`, scanning at most
`total` bits (`fuel` counts the bits left to scan). -/
def bitset_fwd_go (bs : Nat → Bool) (base total : Nat) : Nat → Nat
  | 0 => total
  | fuel + 1 =>
      let i := total - (fuel + 1)
      if bs (base + i) then i else bitset_fwd_go bs base total fuel

/-- Number of consecutive free bits strictly before `s` (scanning down). -/
def bitset_back_go (bs : Nat → Bool) (s : Nat) : Nat → Nat
  | 0 => s
  | fuel + 1 =>
      let k := s - (fuel + 1)
      if bs (s - 1 - k) then k else bitset_back_go bs s fuel

/-- The length of the maximal free hole containing index `s` (bounded by the
capacity): free bits extending backward from `s` plus those from `s` on. -/
def bitset_hole_len (bs : Nat → Bool) (s cap : Nat) : Nat :=
  bitset_back_go bs s s + bitset_fwd_go bs s (cap - s) (cap - s)

/-- Modelled from the spec (bits.h is not in src/): scan keeping the
qualifying start whose containing hole is smallest (ties keep the lowest
index). -/
def bitset_find_best_go (h : heap_t) (nchunks chunks_align cap1 : Nat) :
    Nat → Option Nat → Option Nat
  | 0, best => best
  | fuel + 1, best =>
      let s := cap1 - (fuel + 1)
      if s + nchunks ≤ h.chunk_cap then
        (if s % chunks_align = 0 && bitset_run_free h.chunk_use s nchunks then
          (match best with
           | none => bitset_find_best_go h nchunks chunks_align cap1 fuel (some s)
           | some b =>
               if bitset_hole_len h.chunk_use s h.chunk_cap
                    < bitset_hole_len h.chunk_use b h.chunk_cap
               then bitset_find_best_go h nchunks chunks_align cap1 fuel (some s)
               else bitset_find_best_go h nchunks chunks_align cap1 fuel (some b))
         else bitset_find_best_go h nchunks chunks_align cap1 fuel best)
      else best

/-- Modelled from the spec (bits.h is not in src/): `bitset_find_best_fit`
returns, among qualifying aligned starts, one lying in the smallest hole
(ties broken by lowest index); the found run length is `nchunks`. -/
def bitset_find_best_fit (h : heap_t) (nchunks chunks_align : Nat) : Option Nat :=
  bitset_find_best_go h nchunks chunks_align (h.chunk_cap + 1) (h.chunk_cap + 1) none

/-- `heap_alloc` (part_000 lines 202-265): returns `(ptr, effective size,
updated heap)` or `none`.  `chunk_index` starts at 0 (line 218); the
early-exit test keeps its literal `nchunks + 0` shape (line 222). -/
def heap_alloc (h : heap_t) (size alignment : Nat) : Option (Nat × Nat × heap_t) :=
  let nchunks := (size + CHUNK_SIZE - 1) / CHUNK_SIZE
  let chunks_align0 := alignment / CHUNK_SIZE
  let chunks_align := if chunks_align0 = 0 then 1 else chunks_align0
  if h.chunk_cap - h.chunk_len < nchunks + 0 then none
  else
    match (if nchunks < BEST_FIT_THRESHOLD
           then bitset_find_first_fit h nchunks chunks_align
           else bitset_find_best_fit h nchunks chunks_align) with
    | none => none
    | some chunk_index =>
        some (h.chunks + chunk_index * CHUNK_SIZE, nchunks * CHUNK_SIZE,
              { h with chunk_use := bitset_set_range h.chunk_use chunk_index nchunks true,
                       chunk_len := h.chunk_len + nchunks })

/-- `heap_contains` (part_000 lines 183-186). -/
def heap_contains (h : heap_t) (ptr size : Nat) : Bool :=
  decide (h.chunks ≤ ptr) && decide (ptr + size ≤ h.chunks + h.chunk_cap * CHUNK_SIZE)

/-- `heap_free` (part_000 lines 268-291). -/
def heap_free (h : heap_t) (ptr size : Nat) : heap_t :=
  let chunk_addr := ptr &&& CHUNK_MASK
  let chunk_index := (chunk_addr - h.chunks) / CHUNK_SIZE
  let chunk_len := size / CHUNK_SIZE
  { h with chunk_use := bitset_set_range h.chunk_use chunk_index chunk_len false,
           chunk_len := h.chunk_len - chunk_len }

/-- A slab block header `slabblock_t` (part_000 lines 74-80), keyed by the
block's base address in the store below. -/
structure slabblock_st where
  next : Nat
  recycle : List Nat
  cap : Nat
  len : Nat
deriving DecidableEq

/-- Read a block header from the store (an association list of base address
to header). -/
def blockGet : List (Nat × slabblock_st) → Nat → slabblock_st
  | [], _ => ⟨0, [], 0, 0⟩
  | (a, b) :: t, x => if x = a then b else blockGet t x

/-- Write a block header into the store. -/
def blockSet : List (Nat × slabblock_st) → Nat → slabblock_st → List (Nat × slabblock_st)
  | [], a, b => [(a, b)]
  | (a0, b0) :: t, a, b => if a = a0 then (a, b) :: t else (a0, b0) :: blockSet t a b

/-- `a->slabheaps[i].size = 1 << (i + ILOG2(SLABHEAP_MIN_SIZE))`
(part_000 line 709); the class sizes are fixed at creation and never
mutated, so they are not part of the mutable state. -/
def slabClassSize (i : Nat) : Nat := 1 <<< (i + flsOrder SLABHEAP_MIN_SIZE)

/-- The mutable part of a `slabheap_t` (part_000 lines 82-86): the heads of
the usable and full block lists (0 = NULL). -/
structure slabheap_t where
  usable : Nat
  full : Nat
deriving DecidableEq

/-- Allocator state `rmemalloc_t` (part_000 lines 88-97): the sub-heap list
in iteration order, the `SLABHEAP_COUNT` slab heaps, and the slab-block
header store. -/
structure kha_st where
  subheaps : List heap_t
  slabheaps : List slabheap_t
  blocks : List (Nat × slabblock_st)

/-- `a->slabheaps[i]` (read). -/
def slabGet (st : kha_st) (i : Nat) : slabheap_t := st.slabheaps.getD i ⟨0, 0⟩

/-- `kmem_heapalloc` (part_000 lines 452-461) over the sub-heap list. -/
def kmem_heapalloc_go : List heap_t → Nat → Nat → Option (Nat × Nat × List heap_t)
  | [], _, _ => none
  | h :: t, size, alignment =>
      match heap_alloc h size alignment with
      | some (ptr, sz, h2) => some (ptr, sz, h2 :: t)
      | none =>
          match kmem_heapalloc_go t size alignment with
          | some (ptr, sz, t2) => some (ptr, sz, h :: t2)
          | none => none

/-- `kmem_heapalloc` (part_000 lines 452-461). -/
def kmem_heapalloc (st : kha_st) (size alignment : Nat) : Option (Nat × Nat × kha_st) :=
  match kmem_heapalloc_go st.subheaps size alignment with
  | some (ptr, sz, hs) => some (ptr, sz, { st with subheaps := hs })
  | none => none

/-- `slabheap_grow` (part_000 lines 467-492): back a new block with a
`SLABHEAP_BLOCK_SIZE`-aligned region from the sub-heaps and make it the
usable list.  On heap failure the retry loop calls `kmem_expand`, which
panics ("TODO expand memory", line 447); that outcome is modelled as
`none`. -/
def slabheap_grow (st : kha_st) (i : Nat) : Option (Nat × kha_st) :=
  match kmem_heapalloc st SLABHEAP_BLOCK_SIZE SLABHEAP_BLOCK_SIZE with
  | none => none
  | some (baddr, _sz, st1) =>
      let blk : slabblock_st :=
        { next := 0, recycle := [],
          cap := SLABHEAP_BLOCK_SIZE / slabClassSize i, len := 0 }
      some (baddr,
        { st1 with
          blocks := blockSet st1.blocks baddr blk
          slabheaps := st1.slabheaps.set i { slabGet st1 i with usable := baddr } })

/-- Move a block from the usable list head to the full list head
(`slabheap_alloc`, part_000 lines 524-529): `sh->usable = block->next;
block->next = sh->full; sh->full = block`. -/
def slab_mark_full (st : kha_st) (i baddr : Nat) (blk : slabblock_st) : kha_st :=
  { st with
    slabheaps := st.slabheaps.set i ⟨blk.next, baddr⟩
    blocks := blockSet st.blocks baddr { blk with next := (slabGet st i).full } }

/-- `slabheap_alloc` (part_000 lines 495-538). -/
def slabheap_alloc (st : kha_st) (i : Nat) : Option (Nat × kha_st) :=
  match (if (slabGet st i).usable = 0 then slabheap_grow st i
         else some ((slabGet st i).usable, st)) with
  | none => none
  | some (baddr, st1) =>
      let blk := blockGet st1.blocks baddr
      match blk.recycle with
      | chunk :: rest =>
          -- recycle a chunk; `block->recycle = chunk->next`
          let blk2 := { blk with recycle := rest }
          let st2 := { st1 with blocks := blockSet st1.blocks baddr blk2 }
          -- `chunk->next == NULL && block->len == block->cap`
          if rest = [] ∧ blk2.len = blk2.cap then some (chunk, slab_mark_full st2 i baddr blk2)
          else some (chunk, st2)
      | [] =>
          -- bump-allocate from the unused tail; the new chunk's next is NULL
          let data_addr := ALIGN2 (baddr + SLABBLOCK_HDR) (slabClassSize i)
          let chunk := data_addr + blk.len * slabClassSize i
          let blk2 := { blk with len := blk.len + 1 }
          let st2 := { st1 with blocks := blockSet st1.blocks baddr blk2 }
          if blk2.len = blk2.cap then some (chunk, slab_mark_full st2 i baddr blk2)
          else some (chunk, st2)

/-- `slabheap_free` (part_000 lines 541-571).  When the owning block was
full, the code pops `sh->full = block->next` — assuming the block heads the
full list — then prepends the block to the usable list. -/
def slabheap_free (st : kha_st) (i : Nat) (ptr : Nat) : kha_st :=
  let baddr := ptr &&& SLABHEAP_BLOCK_MASK
  let blk := blockGet st.blocks baddr
  let block_full := decide (blk.recycle = [] ∧ blk.len = blk.cap)
  let blk2 := { blk with recycle := ptr :: blk.recycle }
  let st1 := { st with blocks := blockSet st.blocks baddr blk2 }
  if block_full then
    -- `sh->full = block->next; block->next = sh->usable; sh->usable = block`
    { st1 with
      slabheaps := st1.slabheaps.set i ⟨baddr, blk2.next⟩
      blocks := blockSet st1.blocks baddr { blk2 with next := (slabGet st1 i).usable } }
  else st1

/-- `kmem_alloc_aligned` (part_000 lines 588-633).  Returns
`(region.start, region.size, state)`; the expansion path calls
`kmem_expand`, which panics, modelled as `none`.  The asserts (power-of-two
alignment ≤ PAGE_SIZE) are hypotheses of the theorems. -/
def kmem_alloc_aligned (st : kha_st) (size alignment : Nat) :
    Option (Nat × Nat × kha_st) :=
  let slabsize := ALIGN2 size alignment
  match (List.range SLABHEAP_COUNT).find? (fun i => decide (slabsize ≤ slabClassSize i)) with
  | some i =>
      match slabheap_alloc st i with
      | some (ptr, st1) => some (ptr, slabClassSize i, st1)
      | none => none
  | none =>
      match kmem_heapalloc st size alignment with
      | some (ptr, sz, st1) => some (ptr, sz, st1)
      | none => none

/-- The sub-heap branch of `kmem_free` (part_000 lines 651-657). -/
def kmem_free_heaps : List heap_t → Nat → Nat → Option (List heap_t)
  | [], _, _ => none
  | h :: t, start, size =>
      if heap_contains h start size then some (heap_free h start size :: t)
      else
        match kmem_free_heaps t start size with
        | some t2 => some (h :: t2)
        | none => none

/-- `kmem_free` (part_000 lines 636-662): dispatch on the region size to the
first fitting slab class, else to the owning sub-heap; an unregistered
region hits `safecheckf(0, ...)` (a panic), modelled as `none`. -/
def kmem_free (st : kha_st) (start size : Nat) : Option kha_st :=
  match (List.range SLABHEAP_COUNT).find? (fun i => decide (size ≤ slabClassSize i)) with
  | some i => some (slabheap_free st i start)
  | none =>
      match kmem_free_heaps st.subheaps start size with
      | some hs => some { st with subheaps := hs }
      | none => none

/-- `kmem_alloc_size` (part_000 lines 665-675); requires `size > 0`
(asserted). -/
def kmem_alloc_size (size : Nat) : Nat :=
  if size ≤ 1 <<< ((SLABHEAP_COUNT - 1) + flsOrder SLABHEAP_MIN_SIZE)
  then CEIL_POW2 size
  else ALIGN2 size CHUNK_SIZE


/-- The demo sub-heap: 2048 chunks (128 KiB) at base address 65536, all free. -/
def hp0 : heap_t := ⟨2048, 0, 65536, fun _ => false⟩

def khaDemo : kha_st :=
  { subheaps := [hp0]
    slabheaps := [⟨0, 0⟩, ⟨0, 0⟩, ⟨0, 0⟩, ⟨0, 0⟩]
    blocks := [] }

def allocStep (st : kha_st) : kha_st :=
  match kmem_alloc_aligned st 64 1 with
  | some (_, _, st2) => st2
  | none => st

def iterAlloc : Nat → kha_st → kha_st
  | 0, st => st
  | n + 1, st => iterAlloc n (allocStep st)

def bs1 : Nat → Bool := bitset_set_range (fun _ => false) 0 1024 true

def hp1 : heap_t := ⟨2048, 1024, 65536, bs1⟩

def hp2 : heap_t := ⟨2048, 2048, 65536, bitset_set_range bs1 1024 1024 true⟩

def s1 (n : Nat) : kha_st :=
  { subheaps := [hp1]
    slabheaps := [⟨0, 0⟩, ⟨0, 0⟩, ⟨0, 0⟩, ⟨65536, 0⟩]
    blocks := [(65536, ⟨0, [], 1024, n⟩)] }

def sF1 : kha_st :=
  { subheaps := [hp1]
    slabheaps := [⟨0, 0⟩, ⟨0, 0⟩, ⟨0, 0⟩, ⟨0, 65536⟩]
    blocks := [(65536, ⟨0, [], 1024, 1024⟩)] }

def s2 (n : Nat) : kha_st :=
  { subheaps := [hp2]
    slabheaps := [⟨0, 0⟩, ⟨0, 0⟩, ⟨0, 0⟩, ⟨131072, 65536⟩]
    blocks := [(65536, ⟨0, [], 1024, 1024⟩), (131072, ⟨0, [], 1024, n⟩)] }

def sF2 : kha_st :=
  { subheaps := [hp2]
    slabheaps := [⟨0, 0⟩, ⟨0, 0⟩, ⟨0, 0⟩, ⟨0, 131072⟩]
    blocks := [(65536, ⟨0, [], 1024, 1024⟩), (131072, ⟨65536, [], 1024, 1024⟩)] }

def sBug : kha_st :=
  { subheaps := [hp2]
    slabheaps := [⟨0, 0⟩, ⟨0, 0⟩, ⟨0, 0⟩, ⟨65536, 0⟩]
    blocks := [(65536, ⟨0, [65600], 1024, 1024⟩), (131072, ⟨65536, [], 1024, 1024⟩)] }

theorem bitset_run_free_of_free (bs : Nat → Bool) (base : Nat) :
    ∀ n, (∀ i, i < n → bs (base + i) = false) → bitset_run_free bs base n = true := by
  intro n
  induction n with
  | zero => intro _; rfl
  | succ n ih =>
      intro h
      have h0 : bs (base + n) = false := h n (Nat.lt_succ_self n)
      simp only [bitset_run_free, h0, Bool.false_eq_true, if_false]
      exact ih fun i hi => h i (Nat.lt_succ_of_lt hi)

theorem bitset_run_free_of_used (bs : Nat → Bool) (base k : Nat) (hk : bs (base + k) = true) :
    ∀ n, k < n → bitset_run_free bs base n = false := by
  intro n
  induction n with
  | zero => intro h; omega
  | succ n ih =>
      intro h
      by_cases hkn : k = n
      · subst hkn
        simp only [bitset_run_free, hk, if_true]
      · have h2 : k < n := by omega
        simp only [bitset_run_free]
        rcases hb : bs (base + n) with _ | _
        · simp only [Bool.false_eq_true, if_false]
          exact ih h2
        · simp only [if_true]

theorem bitset_fwd_go_all_free (bs : Nat → Bool) (base total : Nat)
    (h : ∀ i, i < total → bs (base + i) = false) :
    ∀ fuel, fuel ≤ total → bitset_fwd_go bs base total fuel = total := by
  intro fuel
  induction fuel with
  | zero => intro _; rfl
  | succ fuel ih =>
      intro hle
      have hi : total - (fuel + 1) < total := by omega
      have h0 : bs (base + (total - (fuel + 1))) = false := h _ hi
      simp only [bitset_fwd_go, h0, Bool.false_eq_true, if_false]
      exact ih (by omega)

theorem bitset_back_go_all_free (bs : Nat → Bool) (s : Nat)
    (h : ∀ i, i < s → bs i = false) :
    ∀ fuel, fuel ≤ s → bitset_back_go bs s fuel = s := by
  intro fuel
  induction fuel with
  | zero => intro _; rfl
  | succ fuel ih =>
      intro hle
      have he : s - 1 - (s - (fuel + 1)) = fuel := by omega
      have h0 : bs (s - 1 - (s - (fuel + 1))) = false := by
        rw [he]; exact h fuel (by omega)
      simp only [bitset_back_go, h0, Bool.false_eq_true, if_false]
      exact ih (by omega)

theorem best_go_succ (h : heap_t) (n a c fuel : Nat) (b : Option Nat) :
    bitset_find_best_go h n a c (fuel + 1) b =
      if c - (fuel + 1) + n ≤ h.chunk_cap then
        (if (c - (fuel + 1)) % a = 0 && bitset_run_free h.chunk_use (c - (fuel + 1)) n then
          (match b with
           | none => bitset_find_best_go h n a c fuel (some (c - (fuel + 1)))
           | some b0 =>
               if bitset_hole_len h.chunk_use (c - (fuel + 1)) h.chunk_cap
                    < bitset_hole_len h.chunk_use b0 h.chunk_cap
               then bitset_find_best_go h n a c fuel (some (c - (fuel + 1)))
               else bitset_find_best_go h n a c fuel (some b0))
         else bitset_find_best_go h n a c fuel b)
      else b := rfl

theorem best_go_skip (h : heap_t) (n a c : Nat) :
    ∀ (k : Nat) (fuel : Nat) (b : Option Nat),
      (∀ j, fuel < j → j ≤ fuel + k → (c - j) + n ≤ h.chunk_cap ∧ ¬ (c - j) % a = 0) →
      bitset_find_best_go h n a c (fuel + k) b = bitset_find_best_go h n a c fuel b := by
  intro k
  induction k with
  | zero => intro fuel b _; rfl
  | succ k ih =>
      intro fuel b hj
      have hstep := best_go_succ h n a c (fuel + k) b
      have hcur := hj (fuel + k + 1) (by omega) (by omega)
      have hd : decide ((c - (fuel + k + 1)) % a = 0) = false := decide_eq_false hcur.2
      rw [show fuel + (k + 1) = (fuel + k) + 1 by omega, hstep, if_pos hcur.1, hd,
        Bool.false_and, if_neg Bool.false_ne_true]
      exact ih fuel b fun j h1 h2 => hj j h1 (by omega)



theorem hp0_cap : hp0.chunk_cap = 2048 := rfl
theorem hp0_len : hp0.chunk_len = 0 := rfl
theorem hp0_chunks : hp0.chunks = 65536 := rfl

theorem rf_hp0_0 : bitset_run_free hp0.chunk_use 0 1024 = true :=
  bitset_run_free_of_free _ _ _ (fun _ _ => rfl)
theorem rf_hp0_1024 : bitset_run_free hp0.chunk_use 1024 1024 = true :=
  bitset_run_free_of_free _ _ _ (fun _ _ => rfl)
theorem fwd_hp0_0 : bitset_fwd_go hp0.chunk_use 0 2048 2048 = 2048 :=
  bitset_fwd_go_all_free _ _ _ (fun _ _ => rfl) 2048 (Nat.le_refl _)
theorem fwd_hp0_1024 : bitset_fwd_go hp0.chunk_use 1024 1024 1024 = 1024 :=
  bitset_fwd_go_all_free _ _ _ (fun _ _ => rfl) 1024 (Nat.le_refl _)
theorem back_hp0_1024 : bitset_back_go hp0.chunk_use 1024 1024 = 1024 :=
  bitset_back_go_all_free _ _ (fun _ _ => rfl) 1024 (Nat.le_refl _)
theorem back_hp0_0 : bitset_back_go hp0.chunk_use 0 0 = 0 := rfl

theorem best_go_step_none (h : heap_t) (n a c fuel s : Nat)
    (hs : c - (fuel + 1) = s) :
    bitset_find_best_go h n a c (fuel + 1) none =
      if s + n ≤ h.chunk_cap then
        (if s % a = 0 && bitset_run_free h.chunk_use s n
         then bitset_find_best_go h n a c fuel (some s)
         else bitset_find_best_go h n a c fuel none)
      else none := by subst hs; rfl

theorem best_go_step_some (h : heap_t) (n a c fuel s b0 : Nat)
    (hs : c - (fuel + 1) = s) :
    bitset_find_best_go h n a c (fuel + 1) (some b0) =
      if s + n ≤ h.chunk_cap then
        (if s % a = 0 && bitset_run_free h.chunk_use s n then
          (if bitset_hole_len h.chunk_use s h.chunk_cap
               < bitset_hole_len h.chunk_use b0 h.chunk_cap
           then bitset_find_best_go h n a c fuel (some s)
           else bitset_find_best_go h n a c fuel (some b0))
         else bitset_find_best_go h n a c fuel (some b0))
      else some b0 := by subst hs; rfl

theorem hole_hp0_0 : bitset_hole_len hp0.chunk_use 0 2048 = 2048 := by
  norm_num [bitset_hole_len, back_hp0_0, fwd_hp0_0]

theorem hole_hp0_1024 : bitset_hole_len hp0.chunk_use 1024 2048 = 2048 := by
  norm_num [bitset_hole_len, back_hp0_1024, fwd_hp0_1024]

theorem best_fit_hp0 : bitset_find_best_fit hp0 1024 1024 = some 0 := by
  have e1 : bitset_find_best_go hp0 1024 1024 2049 2049 none
          = bitset_find_best_go hp0 1024 1024 2049 2048 (some 0) := by
    have h1 := best_go_step_none hp0 1024 1024 2049 2048 0 rfl
    rw [hp0_cap, rf_hp0_0] at h1
    rw [if_pos (by norm_num : (0:Nat) + 1024 ≤ 2048), if_pos (by decide)] at h1
    exact h1
  have e2 : bitset_find_best_go hp0 1024 1024 2049 2048 (some 0)
          = bitset_find_best_go hp0 1024 1024 2049 1025 (some 0) := by
    have h2 := best_go_skip hp0 1024 1024 2049 1023 1025 (some 0) ?_
    · rw [show (1025:Nat) + 1023 = 2048 from rfl] at h2
      exact h2
    · intro j hj1 hj2
      exact ⟨by rw [hp0_cap]; omega, by omega⟩
  have e3 : bitset_find_best_go hp0 1024 1024 2049 1025 (some 0)
          = bitset_find_best_go hp0 1024 1024 2049 1024 (some 0) := by
    have h3 := best_go_step_some hp0 1024 1024 2049 1024 1024 0 rfl
    rw [hp0_cap, rf_hp0_1024, hole_hp0_0, hole_hp0_1024] at h3
    rw [if_pos (by norm_num : (1024:Nat) + 1024 ≤ 2048), if_pos (by decide),
        if_neg (by norm_num : ¬ (2048:Nat) < 2048)] at h3
    exact h3
  have e4 : bitset_find_best_go hp0 1024 1024 2049 1024 (some 0) = some 0 := by
    have h4 := best_go_step_some hp0 1024 1024 2049 1023 1025 0 rfl
    rw [hp0_cap] at h4
    rw [if_neg (by norm_num : ¬ (1025:Nat) + 1024 ≤ 2048)] at h4
    exact h4
  show bitset_find_best_go hp0 1024 1024 (hp0.chunk_cap + 1) (hp0.chunk_cap + 1) none
     = some 0
  rw [hp0_cap, show (2048:Nat) + 1 = 2049 from rfl, e1, e2, e3, e4]

theorem hp1_cap : hp1.chunk_cap = 2048 := rfl
theorem hp1_len : hp1.chunk_len = 1024 := rfl
theorem hp1_chunks : hp1.chunks = 65536 := rfl
theorem hp1_use : hp1.chunk_use = bs1 := rfl

theorem bs1_lt (i : Nat) (h : i < 1024) : bs1 i = true := by
  simp only [bs1, bitset_set_range]
  rw [if_pos ⟨Nat.zero_le i, by omega⟩]

theorem bs1_ge (i : Nat) (h : 1024 ≤ i) : bs1 i = false := by
  simp only [bs1, bitset_set_range]
  rw [if_neg (by omega)]

theorem rf_hp1_0 : bitset_run_free hp1.chunk_use 0 1024 = false :=
  bitset_run_free_of_used _ _ 1023 (bs1_lt 1023 (by norm_num)) 1024 (by norm_num)

theorem rf_hp1_1024 : bitset_run_free hp1.chunk_use 1024 1024 = true :=
  bitset_run_free_of_free _ _ _ (fun i hi => bs1_ge (1024 + i) (by omega))

theorem best_fit_hp1 : bitset_find_best_fit hp1 1024 1024 = some 1024 := by
  have e1 : bitset_find_best_go hp1 1024 1024 2049 2049 none
          = bitset_find_best_go hp1 1024 1024 2049 2048 none := by
    have h1 := best_go_step_none hp1 1024 1024 2049 2048 0 rfl
    rw [hp1_cap, rf_hp1_0] at h1
    rw [if_pos (by norm_num : (0:Nat) + 1024 ≤ 2048), if_neg (by decide)] at h1
    exact h1
  have e2 : bitset_find_best_go hp1 1024 1024 2049 2048 none
          = bitset_find_best_go hp1 1024 1024 2049 1025 none := by
    have h2 := best_go_skip hp1 1024 1024 2049 1023 1025 none ?_
    · rw [show (1025:Nat) + 1023 = 2048 from rfl] at h2
      exact h2
    · intro j hj1 hj2
      exact ⟨by rw [hp1_cap]; omega, by omega⟩
  have e3 : bitset_find_best_go hp1 1024 1024 2049 1025 none
          = bitset_find_best_go hp1 1024 1024 2049 1024 (some 1024) := by
    have h3 := best_go_step_none hp1 1024 1024 2049 1024 1024 rfl
    rw [hp1_cap, rf_hp1_1024] at h3
    rw [if_pos (by norm_num : (1024:Nat) + 1024 ≤ 2048), if_pos (by decide)] at h3
    exact h3
  have e4 : bitset_find_best_go hp1 1024 1024 2049 1024 (some 1024) = some 1024 := by
    have h4 := best_go_step_some hp1 1024 1024 2049 1023 1025 1024 rfl
    rw [hp1_cap] at h4
    rw [if_neg (by norm_num : ¬ (1025:Nat) + 1024 ≤ 2048)] at h4
    exact h4
  show bitset_find_best_go hp1 1024 1024 (hp1.chunk_cap + 1) (hp1.chunk_cap + 1) none
     = some 1024
  rw [hp1_cap, show (2048:Nat) + 1 = 2049 from rfl, e1, e2, e3, e4]

theorem heap_alloc_best (h : heap_t) (size alignment nchunks ca ci : Nat)
    (hn : (size + CHUNK_SIZE - 1) / CHUNK_SIZE = nchunks)
    (hca : (if alignment / CHUNK_SIZE = 0 then 1 else alignment / CHUNK_SIZE) = ca)
    (hfit : ¬ (h.chunk_cap - h.chunk_len < nchunks + 0))
    (hbig : ¬ (nchunks < BEST_FIT_THRESHOLD))
    (hscan : bitset_find_best_fit h nchunks ca = some ci) :
    heap_alloc h size alignment =
      some (h.chunks + ci * CHUNK_SIZE, nchunks * CHUNK_SIZE,
            { h with chunk_use := bitset_set_range h.chunk_use ci nchunks true,
                     chunk_len := h.chunk_len + nchunks }) := by
  simp only [heap_alloc]
  rw [hn, hca, if_neg hfit, if_neg hbig, hscan]

theorem heap_alloc_hp0 : heap_alloc hp0 65536 65536 = some (65536, 65536, hp1) := by
  have h0 := heap_alloc_best hp0 65536 65536 1024 1024 0
    (by norm_num [CHUNK_SIZE]) (by norm_num [CHUNK_SIZE])
    (by rw [hp0_cap, hp0_len]; norm_num) (by norm_num [BEST_FIT_THRESHOLD])
    best_fit_hp0
  rw [h0]
  rfl

theorem heap_alloc_hp1 : heap_alloc hp1 65536 65536 = some (131072, 65536, hp2) := by
  have h0 := heap_alloc_best hp1 65536 65536 1024 1024 1024
    (by norm_num [CHUNK_SIZE]) (by norm_num [CHUNK_SIZE])
    (by rw [hp1_cap, hp1_len]; norm_num) (by norm_num [BEST_FIT_THRESHOLD])
    best_fit_hp1
  rw [h0]
  rfl

theorem heapalloc_go_one (h : heap_t) (size alignment ptr sz : Nat) (h2 : heap_t)
    (ha : heap_alloc h size alignment = some (ptr, sz, h2)) :
    kmem_heapalloc_go [h] size alignment = some (ptr, sz, [h2]) := by
  simp only [kmem_heapalloc_go]
  rw [ha]

theorem kmem_heapalloc_eq (st : kha_st) (size alignment ptr sz : Nat) (hs : List heap_t)
    (hgo : kmem_heapalloc_go st.subheaps size alignment = some (ptr, sz, hs)) :
    kmem_heapalloc st size alignment = some (ptr, sz, { st with subheaps := hs }) := by
  simp only [kmem_heapalloc]
  rw [hgo]

theorem slabheap_grow_eq (st : kha_st) (i baddr sz : Nat) (st1 : kha_st)
    (hh : kmem_heapalloc st SLABHEAP_BLOCK_SIZE SLABHEAP_BLOCK_SIZE
        = some (baddr, sz, st1)) :
    slabheap_grow st i =
      some (baddr,
        { st1 with
          blocks := blockSet st1.blocks baddr
            ⟨0, [], SLABHEAP_BLOCK_SIZE / slabClassSize i, 0⟩
          slabheaps := st1.slabheaps.set i { slabGet st1 i with usable := baddr } }) := by
  simp only [slabheap_grow]
  rw [hh]

theorem allocStep_eq (st : kha_st) (r : Option (Nat × kha_st))
    (h : slabheap_alloc st 3 = r) :
    allocStep st = (match r with | some (_, st1) => st1 | none => st) := by
  have ha : kmem_alloc_aligned st 64 1 =
      (match slabheap_alloc st 3 with
       | some (ptr, st1) => some (ptr, 64, st1)
       | none => none) := rfl
  simp only [allocStep, ha, h]
  cases r with
  | none => rfl
  | some p =>
      obtain ⟨a, b⟩ := p
      rfl

set_option maxRecDepth 4000 in
theorem slabAlloc_khaDemo : slabheap_alloc khaDemo 3 = some (65600, s1 1) := by
  have hgrow : slabheap_grow khaDemo 3 = some (65536, s1 0) := by
    have hh := kmem_heapalloc_eq khaDemo 65536 65536 65536 65536 [hp1]
      (heapalloc_go_one hp0 65536 65536 65536 65536 hp1 heap_alloc_hp0)
    have hg := slabheap_grow_eq khaDemo 3 65536 65536 _ hh
    rw [hg]
    rfl
  simp only [slabheap_alloc]
  rw [if_pos (show (slabGet khaDemo 3).usable = 0 from rfl), hgrow]
  rfl

set_option maxRecDepth 4000 in
theorem slabAlloc_sF1 : slabheap_alloc sF1 3 = some (131136, s2 1) := by
  have hgrow : slabheap_grow sF1 3 = some (131072, s2 0) := by
    have hh := kmem_heapalloc_eq sF1 65536 65536 131072 65536 [hp2]
      (heapalloc_go_one hp1 65536 65536 131072 65536 hp2 heap_alloc_hp1)
    have hg := slabheap_grow_eq sF1 3 131072 65536 _ hh
    rw [hg]
    rfl
  simp only [slabheap_alloc]
  rw [if_pos (show (slabGet sF1 3).usable = 0 from rfl), hgrow]
  rfl

set_option maxRecDepth 4000 in
theorem slabAlloc_s1 (n : Nat) (h : ¬ (n + 1 = 1024)) :
    slabheap_alloc (s1 n) 3
      = some (ALIGN2 ((slabGet (s1 n) 3).usable + SLABBLOCK_HDR) (slabClassSize 3)
                + n * slabClassSize 3,
              s1 (n + 1)) := by
  have h0 : slabheap_alloc (s1 n) 3 =
      (if n + 1 = 1024
       then some (ALIGN2 ((slabGet (s1 n) 3).usable + SLABBLOCK_HDR) (slabClassSize 3)
                    + n * slabClassSize 3,
                  slab_mark_full (s1 (n + 1)) 3 65536 ⟨0, [], 1024, n + 1⟩)
       else some (ALIGN2 ((slabGet (s1 n) 3).usable + SLABBLOCK_HDR) (slabClassSize 3)
                    + n * slabClassSize 3,
                  s1 (n + 1))) := rfl
  rw [h0, if_neg h]

set_option maxRecDepth 4000 in
theorem slabAlloc_s2 (n : Nat) (h : ¬ (n + 1 = 1024)) :
    slabheap_alloc (s2 n) 3
      = some (ALIGN2 ((slabGet (s2 n) 3).usable + SLABBLOCK_HDR) (slabClassSize 3)
                + n * slabClassSize 3,
              s2 (n + 1)) := by
  have h0 : slabheap_alloc (s2 n) 3 =
      (if n + 1 = 1024
       then some (ALIGN2 ((slabGet (s2 n) 3).usable + SLABBLOCK_HDR) (slabClassSize 3)
                    + n * slabClassSize 3,
                  slab_mark_full (s2 (n + 1)) 3 131072 ⟨0, [], 1024, n + 1⟩)
       else some (ALIGN2 ((slabGet (s2 n) 3).usable + SLABBLOCK_HDR) (slabClassSize 3)
                    + n * slabClassSize 3,
                  s2 (n + 1))) := rfl
  rw [h0, if_neg h]

set_option maxRecDepth 4000 in
theorem step_demo : allocStep khaDemo = s1 1 := by
  rw [allocStep_eq khaDemo _ slabAlloc_khaDemo]

set_option maxRecDepth 4000 in
theorem step_growF1 : allocStep sF1 = s2 1 := by
  rw [allocStep_eq sF1 _ slabAlloc_sF1]

theorem step_s1 (n : Nat) (h : ¬ (n + 1 = 1024)) : allocStep (s1 n) = s1 (n + 1) := by
  rw [allocStep_eq (s1 n) _ (slabAlloc_s1 n h)]

theorem step_s2 (n : Nat) (h : ¬ (n + 1 = 1024)) : allocStep (s2 n) = s2 (n + 1) := by
  rw [allocStep_eq (s2 n) _ (slabAlloc_s2 n h)]

set_option maxRecDepth 4000 in
theorem step_s1_full : allocStep (s1 1023) = sF1 := rfl

set_option maxRecDepth 4000 in
theorem step_s2_full : allocStep (s2 1023) = sF2 := rfl

theorem iterAlloc_add (m n : Nat) (st : kha_st) :
    iterAlloc (m + n) st = iterAlloc n (iterAlloc m st) := by
  induction m generalizing st with
  | zero => rw [Nat.zero_add]; rfl
  | succ m ih =>
      have e1 : iterAlloc (m + 1 + n) st = iterAlloc ((m + n) + 1) st := by
        rw [show m + 1 + n = (m + n) + 1 by omega]
      have e2 : iterAlloc ((m + n) + 1) st = iterAlloc (m + n) (allocStep st) := rfl
      rw [e1, e2, ih (allocStep st)]
      rfl

theorem phase1 : ∀ k, k ≤ 1022 → iterAlloc k (s1 1) = s1 (1 + k) := by
  intro k
  induction k with
  | zero => intro _; rfl
  | succ k ih =>
      intro hk
      rw [iterAlloc_add k 1 (s1 1), ih (by omega)]
      have e2 : iterAlloc 1 (s1 (1 + k)) = allocStep (s1 (1 + k)) := rfl
      rw [e2, step_s1 (1 + k) (by omega)]
      exact congrArg s1 (by omega)

theorem phase2 : ∀ k, k ≤ 1022 → iterAlloc k (s2 1) = s2 (1 + k) := by
  intro k
  induction k with
  | zero => intro _; rfl
  | succ k ih =>
      intro hk
      rw [iterAlloc_add k 1 (s2 1), ih (by omega)]
      have e2 : iterAlloc 1 (s2 (1 + k)) = allocStep (s2 (1 + k)) := rfl
      rw [e2, step_s2 (1 + k) (by omega)]
      exact congrArg s2 (by omega)

theorem iter2048 : iterAlloc 2048 khaDemo = sF2 := by
  have a0 : iterAlloc 2048 khaDemo = iterAlloc 2047 (s1 1) := by
    have e := iterAlloc_add 1 2047 khaDemo
    rw [show iterAlloc 1 khaDemo = allocStep khaDemo from rfl, step_demo] at e
    exact e
  have a1 : iterAlloc 2047 (s1 1) = iterAlloc 1025 (s1 1023) := by
    have e := iterAlloc_add 1022 1025 (s1 1)
    rw [phase1 1022 (by norm_num)] at e
    exact e
  have a2 : iterAlloc 1025 (s1 1023) = iterAlloc 1024 sF1 := by
    have e := iterAlloc_add 1 1024 (s1 1023)
    rw [show iterAlloc 1 (s1 1023) = allocStep (s1 1023) from rfl, step_s1_full] at e
    exact e
  have a3 : iterAlloc 1024 sF1 = iterAlloc 1023 (s2 1) := by
    have e := iterAlloc_add 1 1023 sF1
    rw [show iterAlloc 1 sF1 = allocStep sF1 from rfl, step_growF1] at e
    exact e
  have a4 : iterAlloc 1023 (s2 1) = iterAlloc 1 (s2 1023) := by
    have e := iterAlloc_add 1022 1 (s2 1)
    rw [phase2 1022 (by norm_num)] at e
    exact e
  have a5 : iterAlloc 1 (s2 1023) = sF2 := by
    have e : iterAlloc 1 (s2 1023) = allocStep (s2 1023) := rfl
    rw [e, step_s2_full]
  rw [a0, a1, a2, a3, a4, a5]

set_option maxRecDepth 4000 in
theorem free_sF2 : kmem_free sF2 65600 64 = some sBug := rfl

/-- C4: refuted on the code (the first half of the claim fails).  Starting
from a fresh allocator `khaDemo` (one empty 128 KiB sub-heap), 2048
successful 64-byte slab allocations reach `sF2`, whose size-class-3 full
list holds the two blocks 131072 → 65536 (usable list empty, both blocks
at `len = cap = 1024` with empty recycle lists).  Freeing the chunk 65600 —
owned by block `65600 &&& SLABHEAP_BLOCK_MASK = 65536`, the *second* block
of the full list — produces `sBug`: block 65536 does move to the usable
list, but `sh->full = block->next` (part_000 line 562) pops the *head* of
the full list, so the full list becomes empty and block 131072, still
full, is left on no list at all (`slabGet sBug 3 = ⟨65536, 0⟩` and block
131072 keeps its stale `next = 65536`).  This contradicts the claim that
every other block stays on its list (and with it the claim's consequence
that N frees return all blocks to the usable list). -/
theorem slabheap_free_full_list_pop_bug :
    iterAlloc 2048 khaDemo = sF2
    ∧ slabGet sF2 3 = ⟨0, 131072⟩
    ∧ blockGet sF2.blocks 131072 = ⟨65536, [], 1024, 1024⟩
    ∧ blockGet sF2.blocks 65536 = ⟨0, [], 1024, 1024⟩
    ∧ 65600 &&& SLABHEAP_BLOCK_MASK = 65536
    ∧ kmem_free sF2 65600 64 = some sBug
    ∧ slabGet sBug 3 = ⟨65536, 0⟩
    ∧ blockGet sBug.blocks 65536 = ⟨0, [65600], 1024, 1024⟩
    ∧ blockGet sBug.blocks 131072 = ⟨65536, [], 1024, 1024⟩ :=
  ⟨iter2048, rfl, rfl, rfl, by decide, free_sF2, rfl, rfl, rfl⟩



def c5st : kha_st :=
  { subheaps := []
    slabheaps := [⟨65536, 0⟩, ⟨0, 0⟩, ⟨0, 0⟩, ⟨0, 0⟩]
    blocks := [(65536, ⟨0, [], 8192, 5⟩)] }

def c5stAfter : kha_st :=
  { subheaps := []
    slabheaps := [⟨65536, 0⟩, ⟨0, 0⟩, ⟨0, 0⟩, ⟨0, 0⟩]
    blocks := [(65536, ⟨0, [], 8192, 6⟩)] }

theorem heap_alloc_size (h : heap_t) (size al p sz : Nat) (h2 : heap_t)
    (ha : heap_alloc h size al = some (p, sz, h2)) :
    sz = (size + CHUNK_SIZE - 1) / CHUNK_SIZE * CHUNK_SIZE := by
  simp only [heap_alloc] at ha
  split at ha
  · exact Option.noConfusion ha
  · split at ha
    · exact Option.noConfusion ha
    · simp only [Option.some.injEq, Prod.mk.injEq] at ha
      exact ha.2.1.symm

theorem kmem_heapalloc_go_size :
    ∀ (hs : List heap_t) (size al p sz : Nat) (hs2 : List heap_t),
      kmem_heapalloc_go hs size al = some (p, sz, hs2) →
      sz = (size + CHUNK_SIZE - 1) / CHUNK_SIZE * CHUNK_SIZE := by
  intro hs
  induction hs with
  | nil => intro _ _ _ _ _ h; exact Option.noConfusion h
  | cons h t ih =>
      intro size al p sz hs2 hgo
      simp only [kmem_heapalloc_go] at hgo
      cases hha : heap_alloc h size al with
      | some r =>
          obtain ⟨p0, s0, h2⟩ := r
          rw [hha] at hgo
          simp only [Option.some.injEq, Prod.mk.injEq] at hgo
          rw [← hgo.2.1]
          exact heap_alloc_size h size al p0 s0 h2 hha
      | none =>
          rw [hha] at hgo
          cases hrec : kmem_heapalloc_go t size al with
          | none => rw [hrec] at hgo; exact Option.noConfusion hgo
          | some r2 =>
              obtain ⟨p1, s1, t2⟩ := r2
              rw [hrec] at hgo
              simp only [Option.some.injEq, Prod.mk.injEq] at hgo
              rw [← hgo.2.1]
              exact ih size al p1 s1 t2 hrec

theorem kmem_alloc_aligned_slab (st : kha_st) (size i p sz : Nat) (st2 : kha_st)
    (hfind : (List.range SLABHEAP_COUNT).find?
        (fun j => decide (ALIGN2 size 1 ≤ slabClassSize j)) = some i)
    (ha : kmem_alloc_aligned st size 1 = some (p, sz, st2)) :
    sz = slabClassSize i := by
  simp only [kmem_alloc_aligned] at ha
  rw [hfind] at ha
  have ha2 : (match slabheap_alloc st i with
              | some (ptr, st1) => some (ptr, slabClassSize i, st1)
              | none => none) = some (p, sz, st2) := ha
  cases hs : slabheap_alloc st i with
  | none => rw [hs] at ha2; exact Option.noConfusion ha2
  | some r =>
      obtain ⟨q, st1⟩ := r
      rw [hs] at ha2
      simp only [Option.some.injEq, Prod.mk.injEq] at ha2
      exact ha2.2.1.symm

theorem kmem_alloc_aligned_heap (st : kha_st) (size p sz : Nat) (st2 : kha_st)
    (hfind : (List.range SLABHEAP_COUNT).find?
        (fun j => decide (ALIGN2 size 1 ≤ slabClassSize j)) = none)
    (ha : kmem_alloc_aligned st size 1 = some (p, sz, st2)) :
    sz = (size + CHUNK_SIZE - 1) / CHUNK_SIZE * CHUNK_SIZE := by
  simp only [kmem_alloc_aligned, kmem_heapalloc] at ha
  rw [hfind] at ha
  have ha2 : (match (match kmem_heapalloc_go st.subheaps size 1 with
                     | some (ptr, sz1, hs1) => some (ptr, sz1, { st with subheaps := hs1 })
                     | none => none) with
              | some (ptr, sz1, st1) => some (ptr, sz1, st1)
              | none => none) = some (p, sz, st2) := ha
  cases hgo : kmem_heapalloc_go st.subheaps size 1 with
  | none => rw [hgo] at ha2; exact Option.noConfusion ha2
  | some r =>
      obtain ⟨p1, s1, hs1⟩ := r
      rw [hgo] at ha2
      simp only [Option.some.injEq, Prod.mk.injEq] at ha2
      rw [← ha2.2.1]
      exact kmem_heapalloc_go_size st.subheaps size 1 p1 s1 hs1 hgo

theorem align2_one (x : Nat) : ALIGN2 x 1 = x := by
  simp [ALIGN2]

theorem find_class_none (size : Nat) (h : 64 < size) :
    (List.range SLABHEAP_COUNT).find?
      (fun j => decide (ALIGN2 size 1 ≤ slabClassSize j)) = none := by
  rw [show (List.range SLABHEAP_COUNT) = [0, 1, 2, 3] from rfl]
  have d : ∀ j : Nat, slabClassSize j ≤ 64 →
      (decide (ALIGN2 size 1 ≤ slabClassSize j)) = false := by
    intro j hj
    rw [align2_one]
    exact decide_eq_false (by omega)
  simp only [List.find?]
  rw [d 0 (by decide), d 1 (by decide), d 2 (by decide), d 3 (by decide)]

set_option maxRecDepth 4000 in
theorem slab_class_matches : ∀ size, size < 65 → 1 ≤ size →
    ((List.range SLABHEAP_COUNT).find?
        (fun j => decide (ALIGN2 size 1 ≤ slabClassSize j))).map slabClassSize
      = some (max (CEIL_POW2 size) 8) := by decide

theorem kmem_alloc_size_le64 (size : Nat) (h : size ≤ 64) :
    kmem_alloc_size size = CEIL_POW2 size := by
  simp only [kmem_alloc_size]
  rw [if_pos (show size ≤ 1 <<< ((SLABHEAP_COUNT - 1) + flsOrder SLABHEAP_MIN_SIZE) by
    rw [show (1 <<< ((SLABHEAP_COUNT - 1) + flsOrder SLABHEAP_MIN_SIZE) : Nat) = 64 from rfl]
    exact h)]

theorem kmem_alloc_size_gt64 (size : Nat) (h : 64 < size) :
    kmem_alloc_size size = ALIGN2 size CHUNK_SIZE := by
  simp only [kmem_alloc_size]
  rw [if_neg (show ¬ size ≤ 1 <<< ((SLABHEAP_COUNT - 1) + flsOrder SLABHEAP_MIN_SIZE) by
    rw [show (1 <<< ((SLABHEAP_COUNT - 1) + flsOrder SLABHEAP_MIN_SIZE) : Nat) = 64 from rfl]
    omega)]

theorem nchunks_mul_eq_align2 (size : Nat) :
    (size + CHUNK_SIZE - 1) / CHUNK_SIZE * CHUNK_SIZE = ALIGN2 size CHUNK_SIZE := by
  simp only [ALIGN2, CHUNK_SIZE]
  rw [show (64 : Nat) - 1 = 63 from rfl, show size + 64 - 1 = size + 63 by omega]

/-- C5: refuted as stated, corrected form.  The original claim fails for
sizes 1–4: `kmem_alloc_size` returns `CEIL_POW2 size` (1, 2, or 4), but the
allocation dispatches to the smallest slab class, whose minimum size is
`SLABHEAP_MIN_SIZE = 8`; see the counterexample.  Corrected: for every
`size ≥ 1`, a successful `kmem_alloc_aligned(size, 1)` returns a region of
size `max (kmem_alloc_size size) 8` — i.e. `kmem_alloc_size` clamped below
by the smallest slab class; the two agree exactly when `size ≥ 5`. -/
theorem kmem_alloc_size_actual (st : kha_st) (size p sz : Nat) (st2 : kha_st)
    (h1 : 1 ≤ size)
    (ha : kmem_alloc_aligned st size 1 = some (p, sz, st2)) :
    sz = max (kmem_alloc_size size) 8 := by
  by_cases h64 : size ≤ 64
  · have hb := slab_class_matches size (by omega) h1
    cases hf : (List.range SLABHEAP_COUNT).find?
        (fun j => decide (ALIGN2 size 1 ≤ slabClassSize j)) with
    | none => rw [hf] at hb; exact Option.noConfusion hb
    | some i =>
        rw [hf] at hb
        simp only [Option.map_some', Option.some.injEq] at hb
        rw [kmem_alloc_aligned_slab st size i p sz st2 hf ha, hb,
            kmem_alloc_size_le64 size h64]
  · have hf := find_class_none size (by omega)
    have hsz := kmem_alloc_aligned_heap st size p sz st2 hf ha
    rw [hsz, nchunks_mul_eq_align2, kmem_alloc_size_gt64 size (by omega)]
    have h641 : 64 ≤ ALIGN2 size CHUNK_SIZE := by
      simp only [ALIGN2, CHUNK_SIZE]
      have hq : 1 ≤ (size + (64 - 1)) / 64 := by
        rw [Nat.le_div_iff_mul_le (by norm_num)]
        omega
      calc (64 : Nat) = 1 * 64 := by norm_num
        _ ≤ (size + (64 - 1)) / 64 * 64 := Nat.mul_le_mul_right 64 hq
    omega

/-- Witness for C5's corrected theorem: on the concrete state `c5st` (one
class-0 slab block with 5 of 8192 chunks used), allocating 1 byte returns
the 8-byte chunk 65600, and `max (kmem_alloc_size 1) 8 = 8`. -/
theorem kmem_alloc_size_actual_witness :
    1 ≤ 1 ∧ (8 : Nat) = max (kmem_alloc_size 1) 8 :=
  ⟨Nat.le_refl 1,
   kmem_alloc_size_actual c5st 1 65600 8 c5stAfter (Nat.le_refl 1) rfl⟩

/-- C5 counterexample: `kmem_alloc_size 1 = 1` (CEIL_POW2 of 1), but the
actual allocation of 1 byte from `c5st` succeeds with region size 8 (the
smallest slab class), so the claimed equality fails for size 1. -/
theorem kmem_alloc_size_claim_false :
    kmem_alloc_aligned c5st 1 1 = some (65600, 8, c5stAfter)
    ∧ kmem_alloc_size 1 = 1
    ∧ ¬ ((8 : Nat) = 1) :=
  ⟨rfl, rfl, by decide⟩



/-- All blocks on the order-`k` free lists (for feasible orders) are
`start_addr`-relative multiples of the order's block size; `rmm_create`
establishes this and the allocator preserves it. -/
def FLAlignedRel (mm : RMM) : Prop :=
  ∀ k, k ≤ MAX_ORDER → ∀ a ∈ mm.freelists k,
    mm.start_addr ≤ a ∧ (a - mm.start_addr) % (PAGE_SIZE <<< k) = 0

theorem page_shift_pos (order : Nat) : 0 < PAGE_SIZE <<< order := by
  rw [Nat.shiftLeft_eq]
  exact Nat.mul_pos (by norm_num [PAGE_SIZE]) (Nat.pos_pow_of_pos order (by norm_num))

theorem page_shift_dvd_succ (order : Nat) :
    (PAGE_SIZE <<< order) ∣ (PAGE_SIZE <<< (order + 1)) := by
  simp only [Nat.shiftLeft_eq]
  exact ⟨2, by ring⟩

theorem mod_zero_of_mod_succ_zero (a order : Nat)
    (h : a % (PAGE_SIZE <<< (order + 1)) = 0) :
    a % (PAGE_SIZE <<< order) = 0 := by
  calc a % (PAGE_SIZE <<< order)
      = a % (PAGE_SIZE <<< (order + 1)) % (PAGE_SIZE <<< order) :=
        (Nat.mod_mod_of_dvd a (page_shift_dvd_succ order)).symm
    _ = 0 := by rw [h, Nat.zero_mod]

theorem allocpages1go_aligned :
    ∀ (fuel : Nat) (mm : RMM) (order addr : Nat) (mm' : RMM),
      FLAlignedRel mm →
      allocpages1go fuel mm order = (some addr, mm') →
      addr % (PAGE_SIZE <<< order) = 0 ∧ mm'.start_addr = mm.start_addr
        ∧ FLAlignedRel mm' := by
  intro fuel
  induction fuel with
  | zero =>
      intro mm order addr mm' _ h
      simp only [allocpages1go, Prod.mk.injEq] at h
      exact absurd h.1 (by simp)
  | succ fuel ih =>
      intro mm order addr mm' hinv h
      by_cases hord : order > MAX_ORDER
      · simp only [allocpages1go] at h
        rw [if_pos hord] at h
        simp only [Prod.mk.injEq] at h
        exact absurd h.1 (by simp)
      · simp only [allocpages1go] at h
        rw [if_neg hord] at h
        cases hfl : mm.freelists order with
        | cons node rest =>
            rw [hfl] at h
            simp only [Prod.mk.injEq, Option.some.injEq] at h
            obtain ⟨haddr, hmm⟩ := h
            have hmem : node ∈ mm.freelists order := by
              rw [hfl]; exact List.mem_cons_self _ _
            obtain ⟨hge, hal⟩ := hinv order (by omega) node hmem
            refine ⟨by rw [← haddr]; exact hal, by rw [← hmm]; rfl, ?_⟩
            rw [← hmm]
            intro k hk a ha
            simp only [bset, flSet] at ha
            by_cases hko : k = order
            · subst hko
              rw [if_pos rfl] at ha
              exact hinv k hk a (by rw [hfl]; exact List.mem_cons_of_mem _ ha)
            · rw [if_neg hko] at ha
              exact hinv k hk a ha
        | nil =>
            rw [hfl] at h
            rcases hrec : allocpages1go fuel mm (order + 1) with ⟨o1, mm1⟩
            cases o1 with
            | none =>
                rw [hrec] at h
                simp only [Prod.mk.injEq] at h
                exact absurd h.1 (by simp)
            | some a1 =>
                rw [hrec] at h
                simp only [Prod.mk.injEq, Option.some.injEq] at h
                obtain ⟨haddr, hmm⟩ := h
                obtain ⟨hal1, hst1, hinv1⟩ := ih mm (order + 1) a1 mm1 hinv hrec
                have hdiv : a1 % (PAGE_SIZE <<< order) = 0 :=
                  mod_zero_of_mod_succ_zero a1 order hal1
                refine ⟨by rw [← haddr]; exact hdiv, ?_, ?_⟩
                · rw [← hmm]
                  exact hst1
                · rw [← hmm]
                  intro k hk a ha
                  simp only [bset, flAppend] at ha
                  by_cases hko : k = order
                  · subst hko
                    rw [if_pos rfl] at ha
                    rcases List.mem_append.mp ha with hmem | hmem
                    · exact hinv1 k hk a hmem
                    · have ha2 : a = a1 + mm1.start_addr + (PAGE_SIZE <<< k) :=
                        List.mem_singleton.mp hmem
                      constructor
                      · show mm1.start_addr ≤ a
                        have hps := page_shift_pos k
                        rw [ha2]
                        omega
                      · show (a - mm1.start_addr) % (PAGE_SIZE <<< k) = 0
                        have hps := page_shift_pos k
                        rw [ha2,
                          show a1 + mm1.start_addr + (PAGE_SIZE <<< k) - mm1.start_addr
                              = a1 + (PAGE_SIZE <<< k) by omega,
                          Nat.add_mod_right]
                        exact hdiv
                  · rw [if_neg hko] at ha
                    exact hinv1 k hk a ha

theorem page_shift_mul (k : Nat) : PAGE_SIZE <<< k = 2 ^ k * PAGE_SIZE := by
  rw [Nat.shiftLeft_eq]
  ring

/-- C6: refuted as stated, corrected form.  The returned address is only
`n * PAGE_SIZE`-aligned *relative to the PMM's start address*, not
absolutely (counterexample: a PMM starting at 4096 returns 4096 for a
2-page allocation, and 4096 is not 8192-aligned).  Corrected: whenever the
free lists are order-aligned relative to `start_addr` (`FLAlignedRel`, an
invariant that holds for freshly created PMMs and is preserved by
successful allocations, as this theorem also shows), a successful
`rmm_allocpages(2^k)` returns `p` with
`(p - start_addr) % (2^k * PAGE_SIZE) = 0`. -/
theorem rmm_allocpages_relative_aligned (mm : RMM) (k p : Nat)
    (hinv : FLAlignedRel mm)
    (hp : (rmm_allocpages mm (2 ^ k)).1 = some p) :
    mm.start_addr ≤ p
    ∧ (p - mm.start_addr) % (2 ^ k * PAGE_SIZE) = 0
    ∧ FLAlignedRel (rmm_allocpages mm (2 ^ k)).2 := by
  have hnz : ¬ ((2 : Nat) ^ k = 0) :=
    Nat.pos_iff_ne_zero.mp (Nat.pos_pow_of_pos k (by norm_num))
  simp only [rmm_allocpages] at hp ⊢
  rw [if_neg hnz] at hp ⊢
  rw [orderLoop_pow2 k] at hp ⊢
  rcases hr : rmm_allocpages1 mm k with ⟨o1, mm1⟩
  rw [hr] at hp
  cases o1 with
  | none => exact absurd (hp : (none : Option Nat) = some p) (by simp)
  | some a1 =>
      have hpe : a1 + mm1.start_addr = p := Option.some.inj hp
      obtain ⟨hal, hst, hinv1⟩ :=
        allocpages1go_aligned (MAX_ORDER + 2) mm k a1 mm1 hinv hr
      refine ⟨?_, ?_, ?_⟩
      · rw [← hpe, hst]
        omega
      · rw [← hpe, hst,
          show a1 + mm.start_addr - mm.start_addr = a1 by omega, ← page_shift_mul]
        exact hal
      · exact hinv1

/-- C6 counterexample: the fresh PMM at start 4096 returns address 4096
for a 2-page (8 KiB) allocation; 4096 is not 8192-aligned, although the
offset from `start_addr` is. -/
theorem rmm_allocpages_absolute_alignment_false :
    (rmm_allocpages (rmm_init 4096 (2 ^ 33)) 2).1 = some 4096
    ∧ ¬ (4096 % (2 * PAGE_SIZE) = 0)
    ∧ (4096 - (rmm_init 4096 (2 ^ 33)).start_addr) % (2 * PAGE_SIZE) = 0 :=
  ⟨by decide, by decide, by decide⟩

theorem rmm_init_flAlignedRel : FLAlignedRel (rmm_init 4096 (2 ^ 33)) := by
  unfold FLAlignedRel
  decide

/-- Witness for C6's corrected theorem at the fresh 8 GiB PMM and k = 1. -/
theorem rmm_allocpages_relative_aligned_witness :
    FLAlignedRel (rmm_init 4096 (2 ^ 33))
    ∧ (rmm_init 4096 (2 ^ 33)).start_addr ≤ 4096
    ∧ (4096 - (rmm_init 4096 (2 ^ 33)).start_addr) % (2 ^ 1 * PAGE_SIZE) = 0 :=
  ⟨rmm_init_flAlignedRel,
   (rmm_allocpages_relative_aligned (rmm_init 4096 (2 ^ 33)) 1 4096 rmm_init_flAlignedRel
      (by decide)).1,
   (rmm_allocpages_relative_aligned (rmm_init 4096 (2 ^ 33)) 1 4096 rmm_init_flAlignedRel
      (by decide)).2.1⟩

/-- C2 counterexample (to the claim's final sentence): allocating 2 pages
(order 1) from the fresh PMM sets the block's order-1 bit *and* the order-2
bit of its containing parent block (every split along the way marks its
level), refuting "an allocation at order k sets only its order-k bit".  The
order-0 bit stays clear, as the probe part of the claim requires. -/
theorem rmm_alloc_sets_parent_bits :
    (rmm_allocpages (rmm_init 4096 (2 ^ 33)) 2).1 = some 4096
    ∧ (rmm_init 4096 (2 ^ 33)).bitsets 2 0 = false
    ∧ ((rmm_allocpages (rmm_init 4096 (2 ^ 33)) 2).2).bitsets 1 0 = true
    ∧ ((rmm_allocpages (rmm_init 4096 (2 ^ 33)) 2).2).bitsets 2 0 = true
    ∧ ((rmm_allocpages (rmm_init 4096 (2 ^ 33)) 2).2).bitsets 0 0 = false :=
  ⟨by decide, by decide, by decide, by decide, by decide⟩

/-! ### The buddy bit/probe invariant (C2)

`BuddyInv mm S` relates a PMM state to the list `S` of outstanding (not yet
freed) allocations, recorded as pairs (address relative to `start_addr`,
order).  It holds for a freshly created PMM (`rmm_init_buddyInv`) and is
preserved, with the new block pushed onto `S`, by every successful
`rmm_allocpages1` (`buddyInv_alloc`); from it the upward probe of
`rmm_freepages1` recovers the order of every outstanding block
(`freepages1go_probe`). -/

/-- Disjointness of the half-open ranges `[a, a + sa)` and `[b, b + sb)`. -/
def rngDisj (a sa b sb : Nat) : Prop := a + sa ≤ b ∨ b + sb ≤ a

/-- All use bits strictly below order `o` inside the order-`o` block at
relative address `a` are clear. -/
def ClearBelow (mm : RMM) (a o : Nat) : Prop :=
  ∀ j i, j < o → i < 2 ^ (o - j) →
    mm.bitsets j (a / (PAGE_SIZE <<< j) + i) = false

theorem page_shift_le (j k : Nat) (h : j ≤ k) :
    PAGE_SIZE <<< j ≤ PAGE_SIZE <<< k := by
  rw [page_shift_mul, page_shift_mul]
  exact Nat.mul_le_mul (Nat.pow_le_pow_right (by norm_num) h) (Nat.le_refl _)

theorem page_shift_dvd (j k : Nat) (h : j ≤ k) :
    (PAGE_SIZE <<< j) ∣ (PAGE_SIZE <<< k) := by
  rw [page_shift_mul, page_shift_mul]
  refine ⟨2 ^ (k - j), ?_⟩
  have h2 : (2 : Nat) ^ k = 2 ^ j * 2 ^ (k - j) := by
    rw [← pow_add]
    congr 1
    omega
  rw [h2]
  ring

theorem page_shift_mul_pow (j k : Nat) (h : j ≤ k) :
    (PAGE_SIZE <<< j) * 2 ^ (k - j) = PAGE_SIZE <<< k := by
  rw [page_shift_mul, page_shift_mul]
  have h2 : (2 : Nat) ^ k = 2 ^ j * 2 ^ (k - j) := by
    rw [← pow_add]
    congr 1
    omega
  rw [h2]
  ring

theorem page_shift_add_self (o : Nat) :
    PAGE_SIZE <<< o + PAGE_SIZE <<< o = PAGE_SIZE <<< (o + 1) := by
  rw [page_shift_mul, page_shift_mul, pow_succ]
  ring

theorem mod_zero_of_le_order (a j k : Nat) (hjk : j ≤ k)
    (h : a % (PAGE_SIZE <<< k) = 0) : a % (PAGE_SIZE <<< j) = 0 := by
  calc a % (PAGE_SIZE <<< j)
      = a % (PAGE_SIZE <<< k) % (PAGE_SIZE <<< j) :=
        (Nat.mod_mod_of_dvd a (page_shift_dvd j k hjk)).symm
    _ = 0 := by rw [h, Nat.zero_mod]

theorem div_add_page_shift (a j o : Nat) (h : j ≤ o) :
    (a + PAGE_SIZE <<< o) / (PAGE_SIZE <<< j)
      = a / (PAGE_SIZE <<< j) + 2 ^ (o - j) := by
  rw [← page_shift_mul_pow j o h, Nat.add_mul_div_left _ _ (page_shift_pos j)]

/-- An order-`j` bit index inside the order-`k` block at aligned relative
address `a` corresponds to an address inside `[a, a + PAGE_SIZE <<< k)`. -/
theorem idx_range (a x j k i : Nat) (hjk : j ≤ k)
    (ha : a % (PAGE_SIZE <<< j) = 0) (hi : i < 2 ^ (k - j))
    (hx : x / (PAGE_SIZE <<< j) = a / (PAGE_SIZE <<< j) + i) :
    a ≤ x ∧ x < a + PAGE_SIZE <<< k := by
  have hd := page_shift_pos j
  have hqa : PAGE_SIZE <<< j * (a / (PAGE_SIZE <<< j)) = a :=
    Nat.mul_div_cancel' (Nat.dvd_of_mod_eq_zero ha)
  have hxe := Nat.div_add_mod x (PAGE_SIZE <<< j)
  have hmod : x % (PAGE_SIZE <<< j) < PAGE_SIZE <<< j := Nat.mod_lt x hd
  rw [hx, Nat.mul_add] at hxe
  have hik : PAGE_SIZE <<< j * i + PAGE_SIZE <<< j ≤ PAGE_SIZE <<< k := by
    have h1 : PAGE_SIZE <<< j * (i + 1) ≤ PAGE_SIZE <<< j * 2 ^ (k - j) :=
      Nat.mul_le_mul (Nat.le_refl _) hi
    rw [Nat.mul_succ] at h1
    rw [page_shift_mul_pow j k hjk] at h1
    exact h1
  omega

theorem rngDisj_symm (a sa b sb : Nat) (h : rngDisj a sa b sb) :
    rngDisj b sb a sa := by
  unfold rngDisj at h ⊢
  omega

theorem rngDisj_sub_left (a sa b sb a1 sa1 : Nat) (h : rngDisj a sa b sb)
    (h1 : a ≤ a1) (h2 : a1 + sa1 ≤ a + sa) : rngDisj a1 sa1 b sb := by
  unfold rngDisj at h ⊢
  omega

theorem rngDisj_sub_right (a sa b sb b1 sb1 : Nat) (h : rngDisj a sa b sb)
    (h1 : b ≤ b1) (h2 : b1 + sb1 ≤ b + sb) : rngDisj a sa b1 sb1 := by
  unfold rngDisj at h ⊢
  omega

/-- Invariant of the buddy allocator state `mm` together with the list `S` of
outstanding (not yet freed) allocations, recorded as pairs of address
relative to `start_addr` and order: free blocks are uniquely listed, aligned
to their order, carry no use bits strictly below their order anywhere inside
their range, and are pairwise disjoint as well as disjoint from every
outstanding block; outstanding blocks are order-aligned with order at most
`MAX_ORDER`, carry no use bits strictly below their order inside their
range, have their own order bit set, and are pairwise disjoint. -/
structure BuddyInv (mm : RMM) (S : List (Nat × Nat)) : Prop where
  free_nodup : ∀ o, (mm.freelists o).Nodup
  free_aligned : ∀ o node, node ∈ mm.freelists o →
      mm.start_addr ≤ node ∧ (node - mm.start_addr) % (PAGE_SIZE <<< o) = 0
  free_clear : ∀ o node, node ∈ mm.freelists o →
      ClearBelow mm (node - mm.start_addr) o
  free_disj : ∀ o1 n1 o2 n2, n1 ∈ mm.freelists o1 → n2 ∈ mm.freelists o2 →
      ¬ (o1 = o2 ∧ n1 = n2) →
      rngDisj (n1 - mm.start_addr) (PAGE_SIZE <<< o1)
        (n2 - mm.start_addr) (PAGE_SIZE <<< o2)
  free_S_disj : ∀ o node a k, node ∈ mm.freelists o → (a, k) ∈ S →
      rngDisj (node - mm.start_addr) (PAGE_SIZE <<< o) a (PAGE_SIZE <<< k)
  S_bounds : ∀ a k, (a, k) ∈ S → k ≤ MAX_ORDER ∧ a % (PAGE_SIZE <<< k) = 0
  S_clear : ∀ a k, (a, k) ∈ S → ClearBelow mm a k
  S_set : ∀ a k, (a, k) ∈ S → mm.bitsets k (a / (PAGE_SIZE <<< k)) = true
  S_disj : S.Pairwise (fun p q =>
      rngDisj p.1 (PAGE_SIZE <<< p.2) q.1 (PAGE_SIZE <<< q.2))

/-- Computational characterization of a successful `rmm_allocpages1` run: the
returned address is the relative base of the first node of the free list of
some order `pop` in `[o, MAX_ORDER]`; the free lists strictly between `o` and
`pop` were empty; the popped node is removed, one buddy is appended at every
order in `[o, pop)`, and exactly the use bits of the returned address at the
orders in `[o, pop]` are newly set. -/
theorem allocpages1go_spec :
    ∀ (fuel : Nat) (mm : RMM) (o addr : Nat) (mm1 : RMM),
      allocpages1go fuel mm o = (some addr, mm1) →
      ∃ pop rest node,
        o ≤ pop ∧ pop ≤ MAX_ORDER ∧
        mm.freelists pop = node :: rest ∧
        addr = node - mm.start_addr ∧
        (∀ o1, o ≤ o1 → o1 < pop → mm.freelists o1 = []) ∧
        mm1.start_addr = mm.start_addr ∧
        mm1.end_addr = mm.end_addr ∧
        mm1.free_size = mm.free_size ∧
        (∀ o1, mm1.freelists o1 =
          if o1 = pop then rest
          else if o ≤ o1 ∧ o1 < pop then
            [addr + mm.start_addr + PAGE_SIZE <<< o1]
          else mm.freelists o1) ∧
        (∀ j b, mm1.bitsets j b =
          if o ≤ j ∧ j ≤ pop ∧ b = addr / (PAGE_SIZE <<< j) then true
          else mm.bitsets j b) := by
  intro fuel
  induction fuel with
  | zero =>
      intro mm o addr mm1 h
      simp only [allocpages1go, Prod.mk.injEq] at h
      exact absurd h.1 (by simp)
  | succ fuel ih =>
      intro mm o addr mm1 h
      by_cases hord : o > MAX_ORDER
      · simp only [allocpages1go] at h
        rw [if_pos hord] at h
        simp only [Prod.mk.injEq] at h
        exact absurd h.1 (by simp)
      · simp only [allocpages1go] at h
        rw [if_neg hord] at h
        cases hfl : mm.freelists o with
        | cons node rest =>
            rw [hfl] at h
            simp only [Prod.mk.injEq, Option.some.injEq] at h
            obtain ⟨haddr, hmm⟩ := h
            rw [haddr] at hmm
            refine ⟨o, rest, node, Nat.le_refl o, by omega, hfl, haddr.symm,
              ?_, ?_, ?_, ?_, ?_, ?_⟩
            · intro o1 h1 h2
              omega
            · rw [← hmm]; rfl
            · rw [← hmm]; rfl
            · rw [← hmm]; rfl
            · intro o1
              rw [← hmm]
              simp only [bset, flSet]
              by_cases h1 : o1 = o
              · subst h1
                simp
              · rw [if_neg h1, if_neg h1,
                  if_neg (by omega : ¬ (o ≤ o1 ∧ o1 < o))]
            · intro j b
              rw [← hmm]
              simp only [bset, flSet]
              by_cases hj : j = o
              · subst hj
                by_cases hb : b = addr / (PAGE_SIZE <<< j)
                · simp [hb]
                · rw [if_pos rfl, if_neg hb,
                    if_neg (fun hc => hb hc.2.2)]
              · rw [if_neg hj,
                  if_neg (fun hc => hj (Nat.le_antisymm hc.2.1 hc.1))]
        | nil =>
            rw [hfl] at h
            rcases hrec : allocpages1go fuel mm (o + 1) with ⟨r1, mmr⟩
            cases r1 with
            | none =>
                rw [hrec] at h
                simp only [Prod.mk.injEq] at h
                exact absurd h.1 (by simp)
            | some a1 =>
                rw [hrec] at h
                simp only [Prod.mk.injEq, Option.some.injEq] at h
                obtain ⟨haddr, hmm⟩ := h
                subst haddr
                obtain ⟨pop, rest, node, hopop, hpopM, hflpop, ha1, hempty,
                  hstart, hend, hfs, hflc, hbits⟩ := ih mm (o + 1) a1 mmr hrec
                have hlt : o < pop := by omega
                refine ⟨pop, rest, node, by omega, hpopM, hflpop, ha1,
                  ?_, ?_, ?_, ?_, ?_, ?_⟩
                · intro o1 h1 h2
                  by_cases he : o1 = o
                  · subst he; exact hfl
                  · exact hempty o1 (by omega) h2
                · rw [← hmm]; exact hstart
                · rw [← hmm]; exact hend
                · rw [← hmm]; exact hfs
                · intro o1
                  rw [← hmm]
                  simp only [bset, flAppend]
                  by_cases h1 : o1 = o
                  · rw [h1, if_pos rfl, hflc o, if_neg (by omega : ¬ o = pop),
                      if_neg (by omega : ¬ (o + 1 ≤ o ∧ o < pop)), hfl,
                      hstart, if_neg (by omega : ¬ o = pop),
                      if_pos (⟨Nat.le_refl o, hlt⟩ : o ≤ o ∧ o < pop),
                      List.nil_append]
                  · rw [if_neg h1, hflc o1]
                    by_cases h2 : o1 = pop
                    · rw [if_pos h2, if_pos h2]
                    · rw [if_neg h2, if_neg h2]
                      by_cases h3 : o + 1 ≤ o1 ∧ o1 < pop
                      · rw [if_pos h3,
                          if_pos (⟨by omega, h3.2⟩ : o ≤ o1 ∧ o1 < pop)]
                      · rw [if_neg h3,
                          if_neg (by omega : ¬ (o ≤ o1 ∧ o1 < pop))]
                · intro j b
                  rw [← hmm]
                  simp only [bset, flAppend]
                  by_cases hj : j = o
                  · rw [hj]
                    by_cases hb : b = a1 / (PAGE_SIZE <<< o)
                    · rw [hb, if_pos rfl, if_pos rfl,
                        if_pos (⟨Nat.le_refl o, by omega, rfl⟩ :
                          o ≤ o ∧ o ≤ pop ∧
                            a1 / (PAGE_SIZE <<< o) = a1 / (PAGE_SIZE <<< o))]
                    · rw [if_pos rfl, if_neg hb, hbits o b,
                        if_neg (fun hc => absurd hc.1 (by omega)),
                        if_neg (fun hc => hb hc.2.2)]
                  · rw [if_neg hj, hbits j b]
                    by_cases h3 : o + 1 ≤ j ∧ j ≤ pop ∧ b = a1 / (PAGE_SIZE <<< j)
                    · rw [if_pos h3, if_pos (⟨by omega, h3.2⟩ :
                        o ≤ j ∧ j ≤ pop ∧ b = a1 / (PAGE_SIZE <<< j))]
                    · rw [if_neg h3, if_neg (fun hc => h3 ⟨by omega, hc.2⟩)]

/-- Helper: the bit updates of a successful allocation do not touch any bit
strictly below order `k` inside an order-`k` aligned block at `a` that does
not contain the allocated address. -/
theorem clearBelow_preserved (mm mm1 : RMM) (o pop addr a k : Nat)
    (hbits : ∀ j b, mm1.bitsets j b =
      if o ≤ j ∧ j ≤ pop ∧ b = addr / (PAGE_SIZE <<< j) then true
      else mm.bitsets j b)
    (hcl : ClearBelow mm a k)
    (hal : a % (PAGE_SIZE <<< k) = 0)
    (hout : addr < a ∨ a + PAGE_SIZE <<< k ≤ addr) :
    ClearBelow mm1 a k := by
  intro j i hj hi
  have hc : ¬ (o ≤ j ∧ j ≤ pop ∧
      a / (PAGE_SIZE <<< j) + i = addr / (PAGE_SIZE <<< j)) := by
    rintro ⟨h1, h2, h3⟩
    have hr := idx_range a addr j k i (Nat.le_of_lt hj)
      (mod_zero_of_le_order a j k (Nat.le_of_lt hj) hal) hi h3.symm
    omega
  rw [hbits, if_neg hc]
  exact hcl j i hj hi

/-- Preservation of the buddy invariant by a successful `rmm_allocpages1`:
the popped address joins the outstanding list at the requested order. -/
theorem buddyInv_alloc (mm : RMM) (S : List (Nat × Nat)) (fuel o addr : Nat)
    (mm1 : RMM) (hI : BuddyInv mm S)
    (h : allocpages1go fuel mm o = (some addr, mm1)) :
    o ≤ MAX_ORDER ∧ addr % (PAGE_SIZE <<< o) = 0 ∧
    mm1.start_addr = mm.start_addr ∧
    BuddyInv mm1 ((addr, o) :: S) := by
  obtain ⟨pop, rest, node, hopop, hpopM, hflpop, haddr, hempty, hstart, hend,
    hfs, hflc, hbits⟩ := allocpages1go_spec fuel mm o addr mm1 h
  have hnode : node ∈ mm.freelists pop := by
    rw [hflpop]; exact List.mem_cons_self _ _
  obtain ⟨hstn, haln⟩ := hI.free_aligned pop node hnode
  have halp : addr % (PAGE_SIZE <<< pop) = 0 := by rw [haddr]; exact haln
  have halo : ∀ j, j ≤ pop → addr % (PAGE_SIZE <<< j) = 0 :=
    fun j hj => mod_zero_of_le_order addr j pop hj halp
  have hpopclear : ClearBelow mm addr pop := by
    rw [haddr]; exact hI.free_clear pop node hnode
  have hSd : ∀ a k, (a, k) ∈ S →
      rngDisj addr (PAGE_SIZE <<< pop) a (PAGE_SIZE <<< k) := by
    intro a k hak
    rw [haddr]
    exact hI.free_S_disj pop node a k hnode hak
  have hFd : ∀ o1 n1, n1 ∈ mm.freelists o1 → ¬ (o1 = pop ∧ n1 = node) →
      rngDisj (n1 - mm.start_addr) (PAGE_SIZE <<< o1) addr
        (PAGE_SIZE <<< pop) := by
    intro o1 n1 hn1 hne
    rw [haddr]
    exact hI.free_disj o1 n1 pop node hn1 hnode hne
  have hppos : 0 < PAGE_SIZE <<< pop := page_shift_pos pop
  have hmem1 : ∀ o1 n1, n1 ∈ mm1.freelists o1 →
      (n1 ∈ mm.freelists o1 ∧ ¬ (o1 = pop ∧ n1 = node)) ∨
      (o ≤ o1 ∧ o1 < pop ∧ n1 = addr + mm.start_addr + PAGE_SIZE <<< o1) := by
    intro o1 n1 hn1
    rw [hflc o1] at hn1
    by_cases h1 : o1 = pop
    · subst h1
      rw [if_pos rfl] at hn1
      have hnodup := hI.free_nodup o1
      rw [hflpop] at hnodup
      refine Or.inl ⟨by rw [hflpop]; exact List.mem_cons_of_mem _ hn1, ?_⟩
      rintro ⟨h2, h3⟩
      subst h3
      exact (List.nodup_cons.mp hnodup).1 hn1
    · rw [if_neg h1] at hn1
      by_cases h2 : o ≤ o1 ∧ o1 < pop
      · rw [if_pos h2] at hn1
        exact Or.inr ⟨h2.1, h2.2, List.mem_singleton.mp hn1⟩
      · rw [if_neg h2] at hn1
        exact Or.inl ⟨hn1, fun hc => h1 hc.1⟩
  have hbrel : ∀ o1 : Nat,
      addr + mm.start_addr + PAGE_SIZE <<< o1 - mm.start_addr
        = addr + PAGE_SIZE <<< o1 := by
    intro o1
    have hpp1 := page_shift_pos o1
    omega
  have hbsub : ∀ o1, o ≤ o1 → o1 < pop →
      addr + PAGE_SIZE <<< o1 + PAGE_SIZE <<< o1 ≤ addr + PAGE_SIZE <<< pop := by
    intro o1 h1 h2
    have ha := page_shift_add_self o1
    have hb := page_shift_le (o1 + 1) pop h2
    omega
  have hnewclear : ClearBelow mm1 addr o := by
    intro j i hj hi
    rw [hbits, if_neg (fun hc => absurd hc.1 (by omega))]
    exact hpopclear j i (by omega)
      (lt_of_lt_of_le hi (Nat.pow_le_pow_right (by norm_num) (by omega)))
  have hbuddyclear : ∀ o1, o ≤ o1 → o1 < pop →
      ClearBelow mm1 (addr + PAGE_SIZE <<< o1) o1 := by
    intro o1 h1 h2 j i hj hi
    rw [div_add_page_shift addr j o1 (Nat.le_of_lt hj), hbits]
    have hpp : 0 < 2 ^ (o1 - j) := Nat.pos_pow_of_pos _ (by norm_num)
    have hne : ¬ (o ≤ j ∧ j ≤ pop ∧
        addr / (PAGE_SIZE <<< j) + 2 ^ (o1 - j) + i
          = addr / (PAGE_SIZE <<< j)) := by
      rintro ⟨h3, h4, h5⟩
      omega
    rw [if_neg hne]
    have he : addr / (PAGE_SIZE <<< j) + 2 ^ (o1 - j) + i
        = addr / (PAGE_SIZE <<< j) + (2 ^ (o1 - j) + i) := by omega
    rw [he]
    refine hpopclear j (2 ^ (o1 - j) + i) (by omega) ?_
    have he2 : 2 ^ (o1 - j) + 2 ^ (o1 - j) = 2 ^ (o1 - j + 1) := by
      rw [pow_succ]
      omega
    have hle : (2 : Nat) ^ (o1 - j + 1) ≤ 2 ^ (pop - j) :=
      Nat.pow_le_pow_right (by norm_num) (by omega)
    omega
  refine ⟨by omega, halo o hopop, hstart, ?_, ?_, ?_, ?_, ?_, ?_, ?_, ?_, ?_⟩
  · intro o1
    rw [hflc o1]
    by_cases h1 : o1 = pop
    · rw [if_pos h1]
      have hnodup := hI.free_nodup pop
      rw [hflpop] at hnodup
      exact (List.nodup_cons.mp hnodup).2
    · rw [if_neg h1]
      by_cases h2 : o ≤ o1 ∧ o1 < pop
      · rw [if_pos h2]
        exact List.nodup_singleton _
      · rw [if_neg h2]
        exact hI.free_nodup o1
  · intro o1 n1 hn1
    rw [hstart]
    rcases hmem1 o1 n1 hn1 with ⟨hm, _⟩ | ⟨h1, h2, h3⟩
    · exact hI.free_aligned o1 n1 hm
    · subst h3
      have hpp1 := page_shift_pos o1
      refine ⟨by omega, ?_⟩
      rw [hbrel o1, Nat.add_mod_right]
      exact halo o1 (by omega)
  · intro o1 n1 hn1
    rw [hstart]
    rcases hmem1 o1 n1 hn1 with ⟨hm, hne⟩ | ⟨h1, h2, h3⟩
    · refine clearBelow_preserved mm mm1 o pop addr (n1 - mm.start_addr) o1
        hbits (hI.free_clear o1 n1 hm) (hI.free_aligned o1 n1 hm).2 ?_
      have hd := hFd o1 n1 hm hne
      unfold rngDisj at hd
      omega
    · subst h3
      rw [hbrel o1]
      exact hbuddyclear o1 h1 h2
  · intro o1 n1 o2 n2 h1 h2 hne
    rw [hstart]
    rcases hmem1 o1 n1 h1 with ⟨hm1, hne1⟩ | ⟨ha1, hb1, hc1⟩ <;>
      rcases hmem1 o2 n2 h2 with ⟨hm2, hne2⟩ | ⟨ha2, hb2, hc2⟩
    · exact hI.free_disj o1 n1 o2 n2 hm1 hm2 hne
    · subst hc2
      rw [hbrel o2]
      exact rngDisj_sub_right _ _ addr (PAGE_SIZE <<< pop) _ _
        (hFd o1 n1 hm1 hne1) (Nat.le_add_right _ _) (hbsub o2 ha2 hb2)
    · subst hc1
      rw [hbrel o1]
      refine rngDisj_symm _ _ _ _ ?_
      exact rngDisj_sub_right _ _ addr (PAGE_SIZE <<< pop) _ _
        (hFd o2 n2 hm2 hne2) (Nat.le_add_right _ _) (hbsub o1 ha1 hb1)
    · subst hc1
      subst hc2
      rw [hbrel o1, hbrel o2]
      have hne12 : ¬ o1 = o2 := by
        intro he
        subst he
        exact hne ⟨rfl, rfl⟩
      unfold rngDisj
      by_cases hlt : o1 < o2
      · left
        have hx := page_shift_add_self o1
        have hy := page_shift_le (o1 + 1) o2 hlt
        omega
      · right
        have hlt2 : o2 < o1 := by omega
        have hx := page_shift_add_self o2
        have hy := page_shift_le (o2 + 1) o1 hlt2
        omega
  · intro o1 n1 a k hn1 hak
    rw [hstart]
    rcases List.mem_cons.mp hak with hak1 | hak2
    · injection hak1 with he1 he2
      rw [he1, he2]
      rcases hmem1 o1 n1 hn1 with ⟨hm, hne⟩ | ⟨h1, h2, h3⟩
      · refine rngDisj_sub_right _ _ addr (PAGE_SIZE <<< pop) _ _
          (hFd o1 n1 hm hne) (Nat.le_refl _) ?_
        have := page_shift_le o pop hopop
        omega
      · subst h3
        rw [hbrel o1]
        unfold rngDisj
        right
        have := page_shift_le o o1 h1
        omega
    · rcases hmem1 o1 n1 hn1 with ⟨hm, hne⟩ | ⟨h1, h2, h3⟩
      · exact hI.free_S_disj o1 n1 a k hm hak2
      · subst h3
        rw [hbrel o1]
        exact rngDisj_sub_left addr (PAGE_SIZE <<< pop) a (PAGE_SIZE <<< k) _ _
          (hSd a k hak2) (Nat.le_add_right _ _) (hbsub o1 h1 h2)
  · intro a k hak
    rcases List.mem_cons.mp hak with hak1 | hak2
    · injection hak1 with he1 he2
      rw [he1, he2]
      exact ⟨by omega, halo o hopop⟩
    · exact hI.S_bounds a k hak2
  · intro a k hak
    rcases List.mem_cons.mp hak with hak1 | hak2
    · injection hak1 with he1 he2
      rw [he1, he2]
      exact hnewclear
    · refine clearBelow_preserved mm mm1 o pop addr a k hbits
        (hI.S_clear a k hak2) (hI.S_bounds a k hak2).2 ?_
      have hd := hSd a k hak2
      unfold rngDisj at hd
      omega
  · intro a k hak
    rcases List.mem_cons.mp hak with hak1 | hak2
    · injection hak1 with he1 he2
      rw [he1, he2, hbits, if_pos (⟨Nat.le_refl o, hopop, rfl⟩ :
        o ≤ o ∧ o ≤ pop ∧ addr / (PAGE_SIZE <<< o) = addr / (PAGE_SIZE <<< o))]
    · rw [hbits]
      by_cases hc : o ≤ k ∧ k ≤ pop ∧
          a / (PAGE_SIZE <<< k) = addr / (PAGE_SIZE <<< k)
      · rw [if_pos hc]
      · rw [if_neg hc]
        exact hI.S_set a k hak2
  · refine List.pairwise_cons.mpr ⟨?_, hI.S_disj⟩
    intro p hp
    have hd := hSd p.1 p.2 (by simpa using hp)
    refine rngDisj_sub_left addr (PAGE_SIZE <<< pop) p.1 (PAGE_SIZE <<< p.2)
      addr (PAGE_SIZE <<< o) hd (Nat.le_refl _) ?_
    have := page_shift_le o pop hopop
    omega

/-- Transport of the buddy invariant across the `free_size` bookkeeping of
`rmm_allocpages` (which touches neither bitsets, free lists nor bounds). -/
theorem buddyInv_free_size (mm : RMM) (S : List (Nat × Nat)) (n : Nat)
    (h : BuddyInv mm S) : BuddyInv { mm with free_size := n } S := by
  obtain ⟨h1, h2, h3, h4, h5, h6, h7, h8, h9⟩ := h
  exact ⟨h1, h2, h3, h4, h5, h6, h7, h8, h9⟩

/-- Probe correctness of `rmm_freepages1`: starting at order `j`, with all
use bits of `addr` clear at the orders in `[j, k)` and the order-`k` bit
set, the upward probe returns exactly `k`. -/
theorem freepages1go_probe :
    ∀ (fuel : Nat) (mm : RMM) (addr j k : Nat),
      j ≤ k → k ≤ MAX_ORDER → k - j < fuel →
      (∀ j1, j ≤ j1 → j1 < k →
        mm.bitsets j1 (addr / (PAGE_SIZE <<< j1)) = false) →
      mm.bitsets k (addr / (PAGE_SIZE <<< k)) = true →
      (freepages1go fuel mm addr j).1 = some k := by
  intro fuel
  induction fuel with
  | zero =>
      intro mm addr j k h1 h2 h3 h4 h5
      omega
  | succ fuel ih =>
      intro mm addr j k hjk hkM hfuel hbelow hset
      simp only [freepages1go]
      rw [if_neg (by omega : ¬ j > MAX_ORDER)]
      by_cases hje : j = k
      · subst hje
        have hcond : ¬ (mm.bitsets j (addr / (PAGE_SIZE <<< j)) = false) := by
          rw [hset]
          decide
        rw [if_neg hcond]
        split <;> rfl
      · rw [hbelow j (Nat.le_refl j) (by omega), if_pos rfl]
        exact ih mm addr (j + 1) k (by omega) hkM (by omega)
          (fun j1 ha hb => hbelow j1 (by omega) hb) hset

/-- A freshly created PMM over the 8 GiB range starting at 4096 reduces to
two seeded order-20 blocks. -/
theorem rmm_init_demo_eq :
    rmm_init 4096 (2 ^ 33) =
      bset (bclear (flAppend (bset (bclear (flAppend (rmm_blank 4096 (2 ^ 33))
        20 4096) 20 0) 20 1) 20 4294971392) 20 1) 20 2 := rfl

theorem rmm_init_demo_start : (rmm_init 4096 (2 ^ 33)).start_addr = 4096 := rfl

theorem rmm_init_demo_freelists (o : Nat) :
    (rmm_init 4096 (2 ^ 33)).freelists o =
      if o = 20 then [4096, 4294971392] else [] := by
  rw [rmm_init_demo_eq]
  simp only [bset, bclear, flAppend, rmm_blank]
  by_cases h : o = 20
  · subst h
    simp
  · simp [h]

theorem rmm_init_demo_bitsets (j b : Nat) :
    (rmm_init 4096 (2 ^ 33)).bitsets j b
      = if j = 20 ∧ b = 2 then true else false := by
  rw [rmm_init_demo_eq]
  simp only [bset, bclear, flAppend, rmm_blank]
  by_cases hj : j = 20
  · subst hj
    by_cases hb2 : b = 2
    · simp [hb2]
    · by_cases hb1 : b = 1
      · simp [hb2, hb1]
      · by_cases hb0 : b = 0
        · simp [hb2, hb1, hb0]
        · simp [hb2, hb1, hb0]
  · simp [hj]

/-- Establishment of the buddy invariant at creation (`rmm_create`), for the
fresh 8 GiB PMM with an empty outstanding list. -/
theorem rmm_init_buddyInv : BuddyInv (rmm_init 4096 (2 ^ 33)) [] := by
  refine ⟨?_, ?_, ?_, ?_, ?_, ?_, ?_, ?_, ?_⟩
  · intro o
    rw [rmm_init_demo_freelists]
    by_cases h : o = 20
    · rw [if_pos h]
      decide
    · rw [if_neg h]
      exact List.nodup_nil
  · intro o node hmem
    rw [rmm_init_demo_freelists] at hmem
    rw [rmm_init_demo_start]
    by_cases h : o = 20
    · subst h
      rw [if_pos rfl] at hmem
      simp only [List.mem_cons, List.mem_singleton, List.not_mem_nil,
        or_false] at hmem
      rcases hmem with rfl | rfl
      · exact ⟨by decide, by decide⟩
      · exact ⟨by decide, by decide⟩
    · rw [if_neg h] at hmem
      exact absurd hmem (List.not_mem_nil _)
  · intro o node hmem
    rw [rmm_init_demo_freelists] at hmem
    by_cases h : o = 20
    · subst h
      intro j i hj hi
      rw [rmm_init_demo_bitsets, if_neg (fun hc => by omega)]
    · rw [if_neg h] at hmem
      exact absurd hmem (List.not_mem_nil _)
  · intro o1 n1 o2 n2 h1 h2 hne
    rw [rmm_init_demo_freelists] at h1 h2
    rw [rmm_init_demo_start]
    by_cases ho1 : o1 = 20
    · by_cases ho2 : o2 = 20
      · subst ho1
        subst ho2
        rw [if_pos rfl] at h1 h2
        simp only [List.mem_cons, List.mem_singleton, List.not_mem_nil,
          or_false] at h1 h2
        rcases h1 with rfl | rfl <;> rcases h2 with rfl | rfl
        · exact absurd ⟨rfl, rfl⟩ hne
        · unfold rngDisj
          left
          decide
        · unfold rngDisj
          right
          decide
        · exact absurd ⟨rfl, rfl⟩ hne
      · rw [if_neg ho2] at h2
        exact absurd h2 (List.not_mem_nil _)
    · rw [if_neg ho1] at h1
      exact absurd h1 (List.not_mem_nil _)
  · intro o node a k hmem hak
    exact absurd hak (List.not_mem_nil _)
  · intro a k hak
    exact absurd hak (List.not_mem_nil _)
  · intro a k hak
    exact absurd hak (List.not_mem_nil _)
  · intro a k hak
    exact absurd hak (List.not_mem_nil _)
  · exact List.Pairwise.nil

/-- C2: corrected form of the probe property, proven generally under the
buddy invariant `BuddyInv mm S` over the list `S` of outstanding (not yet
freed) allocations — an invariant that holds for freshly created PMMs
(`rmm_init_buddyInv`) and that this theorem shows preserved, with the new
block pushed onto `S`, by every successful allocation, so it covers every
state reachable from a fresh PMM through `rmm_allocpages` with any number
of interfering allocations of any sizes.  After a successful
`rmm_allocpages(2^k)` returning `p`, every outstanding block — the new one
at relative address `p - start_addr` and order `k` as well as every
previously allocated, not yet freed one — has its use bits clear at every
order below its own order and set at its order, so the upward probe of
`rmm_freepages1` starting at order 0 returns exactly its order.  The
claim's final sentence ("an allocation at order k sets only its order-k
bit") is refuted by the counterexample `rmm_alloc_sets_parent_bits`: the
split path sets the allocated address's bit at every order from `k` up to
the order it popped from; those extra bits sit at higher orders, and the
upward probe stops at the first set bit, `k`.  States reached through
`rmm_freepages` are not covered: per C1, freeing is already broken by the
seeding bug. -/
theorem rmm_alloc_bit_probe_deduces_order (mm : RMM) (S : List (Nat × Nat))
    (k p : Nat) (hinv : BuddyInv mm S)
    (hp : (rmm_allocpages mm (2 ^ k)).1 = some p) :
    k ≤ MAX_ORDER ∧ mm.start_addr ≤ p
    ∧ BuddyInv (rmm_allocpages mm (2 ^ k)).2 ((p - mm.start_addr, k) :: S)
    ∧ (∀ a j, (a, j) ∈ (p - mm.start_addr, k) :: S →
        (∀ j1, j1 < j →
          ((rmm_allocpages mm (2 ^ k)).2).bitsets j1
            (a / (PAGE_SIZE <<< j1)) = false)
        ∧ ((rmm_allocpages mm (2 ^ k)).2).bitsets j
            (a / (PAGE_SIZE <<< j)) = true
        ∧ (rmm_freepages1 ((rmm_allocpages mm (2 ^ k)).2) a 0).1 = some j) := by
  have hnz : ¬ ((2 : Nat) ^ k = 0) :=
    Nat.pos_iff_ne_zero.mp (Nat.pos_pow_of_pos k (by norm_num))
  rcases hr : rmm_allocpages1 mm k with ⟨o1, mma⟩
  cases o1 with
  | none =>
      have hnone : (rmm_allocpages mm (2 ^ k)).1 = none := by
        simp only [rmm_allocpages]
        rw [if_neg hnz, orderLoop_pow2 k, hr]
      rw [hnone] at hp
      exact Option.noConfusion hp
  | some a1 =>
      obtain ⟨hkM, hal, hst, hinv1⟩ :=
        buddyInv_alloc mm S (MAX_ORDER + 2) k a1 mma hinv hr
      have h1 : (rmm_allocpages mm (2 ^ k)).1 = some (a1 + mma.start_addr) := by
        simp only [rmm_allocpages]
        rw [if_neg hnz, orderLoop_pow2 k, hr]
      have h2 : (rmm_allocpages mm (2 ^ k)).2
          = { mma with free_size := usizeSub mma.free_size (2 ^ k * PAGE_SIZE) } := by
        simp only [rmm_allocpages]
        rw [if_neg hnz, orderLoop_pow2 k, hr]
      rw [h1] at hp
      have hpe : a1 + mma.start_addr = p := Option.some.inj hp
      have hrel : p - mm.start_addr = a1 := by
        rw [← hpe, hst]
        omega
      rw [h2, hrel]
      have hinvF : BuddyInv
          { mma with free_size := usizeSub mma.free_size (2 ^ k * PAGE_SIZE) }
          ((a1, k) :: S) :=
        buddyInv_free_size mma ((a1, k) :: S) _ hinv1
      have h20 : MAX_ORDER = 20 := rfl
      refine ⟨hkM, by rw [← hpe, hst]; omega, hinvF, ?_⟩
      intro a j hmem
      have hb := hinvF.S_bounds a j hmem
      have hcl := hinvF.S_clear a j hmem
      have hset := hinvF.S_set a j hmem
      refine ⟨?_, hset, ?_⟩
      · intro j1 hj1
        have hx := hcl j1 0 hj1 (Nat.pos_pow_of_pos _ (by norm_num))
        simpa using hx
      · exact freepages1go_probe (MAX_ORDER + 2) _ a 0 j (Nat.zero_le j) hb.1
          (by omega)
          (fun j1 h1a h1b => by
            have hx := hcl j1 0 h1b (Nat.pos_pow_of_pos _ (by norm_num))
            simpa using hx)
          hset

/-- Witness for C2's corrected theorem, applied to the fresh 8 GiB PMM
(whose invariant is `rmm_init_buddyInv`) with an empty outstanding list and
k = 1: the upward probe after the order-1 allocation returns 1. -/
theorem rmm_alloc_bit_probe_deduces_order_witness :
    BuddyInv (rmm_init 4096 (2 ^ 33)) []
    ∧ (rmm_allocpages (rmm_init 4096 (2 ^ 33)) (2 ^ 1)).1 = some 4096
    ∧ (rmm_freepages1 ((rmm_allocpages (rmm_init 4096 (2 ^ 33)) (2 ^ 1)).2)
        (4096 - (rmm_init 4096 (2 ^ 33)).start_addr) 0).1 = some 1 :=
  ⟨rmm_init_buddyInv, by decide,
   ((rmm_alloc_bit_probe_deduces_order (rmm_init 4096 (2 ^ 33)) [] 1 4096
       rmm_init_buddyInv (by decide)).2.2.2
     (4096 - (rmm_init 4096 (2 ^ 33)).start_addr) 1
     (List.mem_cons_self _ _)).2.2⟩



/-- `VFN_BITS = VM_ADDR_BITS - PAGE_SIZE_BITS` (vm.c line 14). -/
def VFN_BITS : Nat := VM_ADDR_BITS - PAGE_SIZE_BITS

/-- `getbits(x, p, n)` (vm.c lines 48-50): the n-bit field of x beginning at
bit position p, right adjusted. -/
def getbits (x p n : Nat) : Nat := (x >>> (p + 1 - n)) &&& (2 ^ n - 1)

/-- Page-directory state: the root table's host address, the backing PMM,
and host memory holding the page tables (`mem a` is the u64 at byte address
`a`; the walk reads and writes only 8-byte PTE slots).  `vm_pte_t` is
declared in vm.h (not under src/); modelled from the spec as a bare u64
holding `outaddr`. -/
structure vm_pagedir_st where
  root : Nat
  mm : RMM
  mem : Nat → Nat

/-- The loop of `vm_pagedir_lookup_pte` (vm.c lines 135-183), one fuel per
level.  Returns the final PTE and the updated state; the panic paths (no
backing page, `hpage_addr == 0`, no memory for a new table) are `none`.
The dead `if (!ptab)` check at lines 178-181 is unreachable (ptab2 was
null-checked at line 162) and has no counterpart here. -/
def walkGo : Nat → vm_pagedir_st → Nat → Nat → Nat → Nat → Option (Nat × vm_pagedir_st)
  | 0, _, _, _, _, _ => none
  | fuel + 1, pd, bits, masked_vfn, ptab, level =>
      let index := getbits masked_vfn (VFN_BITS - (1 + bits)) VM_PTAB_BITS
      let pte := pd.mem (ptab + index * 8)
      if level = VM_PTAB_LEVELS then
        (if pte = 0 then
          match rmm_allocpages pd.mm 1 with
          | (none, _) => none
          | (some haddr, mm1) =>
              let hpage_addr := haddr >>> PAGE_SIZE_BITS
              if hpage_addr = 0 then none
              else some (hpage_addr,
                { pd with mm := mm1,
                          mem := fun x => if x = ptab + index * 8 then hpage_addr
                                          else pd.mem x })
         else some (pte, pd))
      else
        (if pte ≠ 0 then
          walkGo fuel pd (bits + VM_PTAB_BITS)
            (getbits masked_vfn (VFN_BITS - (1 + (bits + VM_PTAB_BITS)))
              (VFN_BITS - (bits + VM_PTAB_BITS)))
            (pte <<< PAGE_SIZE_BITS) (level + 1)
         else
          match rmm_allocpages pd.mm 1 with
          | (none, _) => none
          | (some ptab2, mm1) =>
              walkGo fuel
                { pd with mm := mm1,
                          mem := fun x => if x = ptab + index * 8
                                          then ptab2 >>> PAGE_SIZE_BITS
                                          else pd.mem x }
                (bits + VM_PTAB_BITS)
                (getbits masked_vfn (VFN_BITS - (1 + (bits + VM_PTAB_BITS)))
                  (VFN_BITS - (bits + VM_PTAB_BITS)))
                ptab2 (level + 1))

/-- `vm_pagedir_lookup_pte` (vm.c lines 124-187): assert `vfn > 0`
(modelled as `none`), subtract one, walk `VM_PTAB_LEVELS` levels from the
root. -/
def vm_pagedir_lookup_pte (pd : vm_pagedir_st) (vfn : Nat) :
    Option (Nat × vm_pagedir_st) :=
  if vfn = 0 then none
  else walkGo VM_PTAB_LEVELS pd 0 (vfn - 1) pd.root 1

/-- `vm_pagedir_translate` (vm.c lines 190-194). -/
def vm_pagedir_translate (pd : vm_pagedir_st) (vaddr : Nat) :
    Option (Nat × vm_pagedir_st) :=
  match vm_pagedir_lookup_pte pd (VM_VFN vaddr) with
  | none => none
  | some (pte, pd1) =>
      some (((pte <<< PAGE_SIZE_BITS) % U64 + VM_ADDR_OFFSET vaddr) % U64, pd1)

/-- `_vm_cache_miss` (vm.c lines 250-282).  `VM_OP_ALIGNMENT(op)` (vm.h,
not under src/) is passed directly as `alignment`; both panic paths (range
and alignment checks) and the failed-lookup `return 0` are `none`;
`IS_ALIGN2` is part_000 line 1151. -/
def vm_cache_miss (cache : vm_cache_t) (pd : vm_pagedir_st)
    (vaddr alignment : Nat) : Option (Nat × vm_cache_t × vm_pagedir_st) :=
  if VM_ADDR_MIN > vaddr ∨ vaddr > VM_ADDR_MAX then none
  else if vaddr &&& (alignment - 1) = 0 then
    (match vm_pagedir_lookup_pte pd (VM_VFN vaddr) with
     | none => none
     | some (pte, pd1) =>
         if (pte <<< PAGE_SIZE_BITS) % U64 = 0 then none
         else
           some ((vm_cache_add cache (VM_PAGE_ADDR vaddr)
                    ((pte <<< PAGE_SIZE_BITS) % U64)).1,
                 (vm_cache_add cache (VM_PAGE_ADDR vaddr)
                    ((pte <<< PAGE_SIZE_BITS) % U64)).2,
                 pd1))
  else none

theorem testBit_false_of_aligned (v t i : Nat) (hal : v % 2 ^ t = 0) (hi : i < t) :
    v.testBit i = false := by
  obtain ⟨m, hm⟩ := Nat.dvd_of_mod_eq_zero hal
  subst hm
  rw [Nat.testBit_to_div_mod]
  have he : (2 : Nat) ^ t * m / 2 ^ i = 2 ^ (t - i) * m := by
    rw [show (2 : Nat) ^ t = 2 ^ i * 2 ^ (t - i) by rw [← pow_add]; congr 1; omega,
        mul_assoc, Nat.mul_div_cancel_left _ (Nat.pos_pow_of_pos i (by norm_num))]
  rw [he, show (2 : Nat) ^ (t - i) = 2 * 2 ^ (t - i - 1) by
        rw [← pow_succ']; congr 1; omega,
      mul_assoc, Nat.mul_mod_right]
  simp

theorem expected_tag_of_aligned (v t : Nat) (hal : v % 2 ^ t = 0) :
    v &&& (VM_ADDR_PAGE_MASK ^^^ (2 ^ t - 1)) = v &&& VM_ADDR_PAGE_MASK := by
  apply Nat.eq_of_testBit_eq
  intro i
  simp only [Nat.testBit_land, Nat.testBit_xor, Nat.testBit_two_pow_sub_one]
  by_cases hi : i < t
  · rw [testBit_false_of_aligned v t i hal hi]
    simp
  · simp [hi]

theorem vm_page_addr_eq (v : Nat) (hv : v < 2 ^ 48) :
    VM_PAGE_ADDR v = v / 4096 * 4096 := by
  unfold VM_PAGE_ADDR
  rw [vm_addr_page_mask_eq, land_maskShift, Nat.shiftRight_eq_div_pow, Nat.shiftLeft_eq]
  have h12 : (2 : Nat) ^ 12 = 4096 := by norm_num
  have hlt : v / 4096 < 2 ^ 36 := by
    have : (2 : Nat) ^ 48 = 2 ^ 36 * 4096 := by norm_num
    omega
  rw [h12, Nat.mod_eq_of_lt hlt]

theorem vm_addr_offset_eq (v : Nat) : VM_ADDR_OFFSET v = v % 4096 := by
  unfold VM_ADDR_OFFSET
  rw [show (PAGE_SIZE - 1 : Nat) = 2 ^ 12 - 1 by norm_num [PAGE_SIZE],
      land_two_pow_sub_one]
  norm_num

theorem vm_vfn_page_addr (v : Nat) (hv : v < 2 ^ 48) :
    VM_VFN (VM_PAGE_ADDR v) = VM_VFN v := by
  rw [vm_page_addr_eq v hv]
  unfold VM_VFN PAGE_SIZE_BITS
  simp only [Nat.shiftRight_eq_div_pow]
  norm_num

/-- C3: after a successful miss-handler call `_vm_cache_miss(cache,
pagedir, vaddr, A)` (`A = VM_OP_ALIGNMENT(op) = 2^t`; the handler itself
checks `VM_ADDR_MIN ≤ vaddr ≤ VM_ADDR_MAX` and the `A`-alignment of
`vaddr`), a lookup of `vaddr` with alignment `A` hits (is nonzero) and
returns exactly what `vm_pagedir_translate(pagedir, vaddr)` returns, the
page directory being left as the miss handler left it.  The claim's stated
proviso — that repeating the page-directory walk for the same VFN yields
the same host page without further mutation — is the hypothesis
`hrepeat`; `hwalk1` names the walk the miss handler performed. -/
theorem vm_cache_miss_lookup_matches_translate
    (cache : vm_cache_t) (pd pd1 : vm_pagedir_st) (vaddr t pte1 diff : Nat)
    (cache2 : vm_cache_t) (pd2 : vm_pagedir_st)
    (ht : t ≤ 12)
    (hwalk1 : vm_pagedir_lookup_pte pd (VM_VFN vaddr) = some (pte1, pd1))
    (hrepeat : vm_pagedir_lookup_pte pd1 (VM_VFN vaddr) = some (pte1, pd1))
    (hmiss : vm_cache_miss cache pd vaddr (2 ^ t) = some (diff, cache2, pd2)) :
    pd2 = pd1
    ∧ vm_cache_lookup cache2 vaddr (2 ^ t) ≠ 0
    ∧ vm_pagedir_translate pd2 vaddr
        = some (vm_cache_lookup cache2 vaddr (2 ^ t), pd2) := by
  unfold vm_cache_miss at hmiss
  split at hmiss
  · exact Option.noConfusion hmiss
  · rename_i hrange
    split at hmiss
    · rename_i halign
      rw [hwalk1] at hmiss
      have hmiss2 :
          (if (pte1 <<< PAGE_SIZE_BITS) % U64 = 0 then none
           else some ((vm_cache_add cache (VM_PAGE_ADDR vaddr)
                        ((pte1 <<< PAGE_SIZE_BITS) % U64)).1,
                      (vm_cache_add cache (VM_PAGE_ADDR vaddr)
                        ((pte1 <<< PAGE_SIZE_BITS) % U64)).2,
                      pd1)) = some (diff, cache2, pd2) := hmiss
      split at hmiss2
      · exact Option.noConfusion hmiss2
      · rename_i hp0
        simp only [Option.some.injEq, Prod.mk.injEq] at hmiss2
        obtain ⟨hdiff, hcache2, hpd2⟩ := hmiss2
        subst hpd2
        -- abbreviations
        have hv48 : vaddr < 2 ^ 48 := by
          unfold VM_ADDR_MIN VM_ADDR_MAX VM_ADDR_BITS PAGE_SIZE at hrange
          omega
        have halm : vaddr % 2 ^ t = 0 := by
          rw [← land_two_pow_sub_one]
          exact halign
        have hvp : VM_PAGE_ADDR vaddr = vaddr / 4096 * 4096 := vm_page_addr_eq vaddr hv48
        have hoff : VM_ADDR_OFFSET vaddr = vaddr % 4096 := vm_addr_offset_eq vaddr
        have hpal : ((pte1 <<< PAGE_SIZE_BITS) % U64) % 4096 = 0 := by
          rw [Nat.mod_mod_of_dvd _ (by norm_num [U64] : (4096 : Nat) ∣ U64)]
          unfold PAGE_SIZE_BITS
          rw [Nat.shiftLeft_eq]
          norm_num [Nat.mul_mod_left]
        have hplt : (pte1 <<< PAGE_SIZE_BITS) % U64 < U64 :=
          Nat.mod_lt _ (by norm_num [U64])
        -- the stored entry is hit by the lookup
        have hvfn : VM_VFN (VM_PAGE_ADDR vaddr) = VM_VFN vaddr := vm_vfn_page_addr vaddr hv48
        have hent : cache2.entries (VM_VFN vaddr &&& VM_CACHE_INDEX_VFN_MASK)
            = ⟨usizeSub ((pte1 <<< PAGE_SIZE_BITS) % U64) (VM_PAGE_ADDR vaddr),
               VM_PAGE_ADDR vaddr⟩ := by
          rw [← hcache2]
          unfold vm_cache_add
          simp [hvfn]
        have hexp : vaddr &&& (VM_ADDR_PAGE_MASK ^^^ (2 ^ t - 1)) = VM_PAGE_ADDR vaddr :=
          expected_tag_of_aligned vaddr t halm
        -- lookup value
        have hval : vm_cache_lookup cache2 vaddr (2 ^ t)
            = (pte1 <<< PAGE_SIZE_BITS) % U64 + vaddr % 4096 := by
          unfold vm_cache_lookup
          rw [hent, hexp]
          show (usizeSub ((pte1 <<< PAGE_SIZE_BITS) % U64) (VM_PAGE_ADDR vaddr)
                  + vaddr) % U64
                * (if VM_PAGE_ADDR vaddr = VM_PAGE_ADDR vaddr then 1 else 0)
              = (pte1 <<< PAGE_SIZE_BITS) % U64 + vaddr % 4096
          rw [if_pos rfl, mul_one]
          unfold usizeSub
          have hU : (2 : Nat) ^ 48 < U64 := by norm_num [U64]
          have hvple : VM_PAGE_ADDR vaddr ≤ vaddr := by rw [hvp]; omega
          have hvpU : VM_PAGE_ADDR vaddr < U64 := by omega
          rw [Nat.mod_eq_of_lt hvpU, Nat.mod_add_mod]
          have harr : (pte1 <<< PAGE_SIZE_BITS) % U64 + (U64 - VM_PAGE_ADDR vaddr) + vaddr
              = ((pte1 <<< PAGE_SIZE_BITS) % U64 + (vaddr - VM_PAGE_ADDR vaddr)) + U64 := by
            omega
          rw [harr, Nat.add_mod_right]
          have hsub : vaddr - VM_PAGE_ADDR vaddr = vaddr % 4096 := by
            rw [hvp]
            omega
          rw [hsub]
          have hU2 : U64 = 18446744073709551616 := rfl
          exact Nat.mod_eq_of_lt (by omega)
        refine ⟨rfl, ?_, ?_⟩
        · rw [hval]
          intro hc
          exact hp0 (Nat.eq_zero_of_add_eq_zero_right hc)
        · unfold vm_pagedir_translate
          rw [hrepeat]
          show some (((pte1 <<< PAGE_SIZE_BITS) % U64 + VM_ADDR_OFFSET vaddr) % U64, pd1)
              = some (vm_cache_lookup cache2 vaddr (2 ^ t), pd1)
          have hlt2 : (pte1 <<< PAGE_SIZE_BITS) % U64 + vaddr % 4096 < U64 := by
            have hU2 : U64 = 18446744073709551616 := rfl
            omega
          rw [hoff, Nat.mod_eq_of_lt hlt2, hval]
    · exact Option.noConfusion hmiss

def pdW : vm_pagedir_st :=
  { root := 65536
    mm := rmm_blank 0 0
    mem := fun a =>
      if a = 65536 then 17
      else if a = 69656 then 18
      else if a = 75688 then 19
      else if a = 79568 then 66639
      else 0 }

theorem pdW_walk : vm_pagedir_lookup_pte pdW (VM_VFN 0xdeadb004) = some (66639, pdW) := rfl

/-- Witness for C3: a four-level page-directory fragment mapping VFN
0xdeadb to host page 0x1044f000; the miss handler at `vaddr = 0xdeadb004`
with alignment 4 fills the cache, and the lookup equals the translate
result. -/
theorem vm_cache_miss_lookup_matches_translate_witness :
    (2 : Nat) ≤ 12
    ∧ vm_pagedir_translate pdW 0xdeadb004
        = some (vm_cache_lookup (vm_cache_add vm_cache_init 0xdeadb000 0x1044f000).2
                  0xdeadb004 (2 ^ 2), pdW) :=
  ⟨by norm_num,
   (vm_cache_miss_lookup_matches_translate vm_cache_init pdW pdW 0xdeadb004 2 66639
      18446744070246580224 (vm_cache_add vm_cache_init 0xdeadb000 0x1044f000).2 pdW
      (by norm_num) pdW_walk pdW_walk rfl).2.2⟩

end RSM
